import Mathlib

/-!
# Verification of the annex4parser core against its specification

This file gives a shallow embedding, in Lean 4, of the pure algorithmic core
of the annex4parser repository (section-code canonicalization, the legal diff
analyzer, robots.txt rule precedence, retry driving, text sanitizers, the
source-operation logger and the versioned ingestion engine), together with
theorems settling the specification claims about those components.

Conventions used throughout:
* Python strings are Lean String values; character-level scanning follows the
  CPython regex semantics of the concrete patterns used by the source,
  restricted to the character classes those patterns mention.
* NFKC normalization is modelled as the identity map, which is exact on the
  ASCII inputs used by every witness and counterexample in this file.
* datetime.utcnow() is modelled by an explicit "now : Int" parameter.
* External collaborators (difflib's ndiff, sklearn's TF-IDF vectorizer,
  SHA-256) are modelled as documented at their definitions.
-/

namespace Annex4

/-! ## Basic Python-flavoured string utilities -/

/-- The whitespace characters recognised by Python's str.strip and by the
ASCII fragment of the regex class backslash-s: space, tab, newline, carriage
return, vertical tab and form feed. -/
def pyWs (c : Char) : Bool :=
  c = ' ' || c = '\t' || c = '\n' || c = '\x0d' || c = '\x0b' || c = '\x0c'

/-- Python str.strip on a character list: drop leading and trailing
whitespace. -/
def stripChars (l : List Char) : List Char :=
  (l.dropWhile pyWs).rdropWhile pyWs

/-- Python str.strip. -/
def pyStrip (s : String) : String :=
  ⟨stripChars s.data⟩

/-- Helper for splitLinesPy: accumulate the current (reversed) line while
scanning. -/
def splitLinesAux (acc : List Char) : List Char → List (List Char)
  | [] => if acc = [] then [] else [acc.reverse]
  | c :: rest =>
    if c = '\n' then acc.reverse :: splitLinesAux [] rest
    else splitLinesAux (c :: acc) rest

/-- Python str.splitlines restricted to the newline separator: every line is
the text before a newline, and a final piece not terminated by a newline is
kept unless it is the empty tail of the string. -/
def splitLinesPy (s : String) : List String :=
  (splitLinesAux [] s.data).map (fun l => ⟨l⟩)

/-- Kernel-computable list prefix test. -/
def listPre : List Char → List Char → Bool
  | [], _ => true
  | _ :: _, [] => false
  | a :: as, b :: bs => a = b && listPre as bs

/-- Kernel-computable contiguous-sublist test; the empty needle matches
everywhere. -/
def listInf (needle : List Char) : List Char → Bool
  | [] => listPre needle []
  | c :: rest => listPre needle (c :: rest) || listInf needle rest

/-- Python substring containment (the "in" operator on strings): the empty
needle is contained in every string. -/
def isSubstr (needle hay : String) : Bool :=
  listInf needle.data hay.data

/-- Python str.startswith. -/
def pyStartsWith (s p : String) : Bool :=
  listPre p.data s.data

/-- A word character in the sense of the regex class backslash-w (ASCII
fragment): letters, digits and underscore. -/
def isWordChar (c : Char) : Bool :=
  c.isAlpha || c.isDigit || c = '_'

example : pyStrip "  ab \t" = "ab" := by decide
example : splitLinesPy "a\nb\n" = ["a", "b"] := by decide
example : splitLinesPy "" = [] := by decide
example : splitLinesPy "\n" = [""] := by decide
example : splitLinesPy "a\n\nb" = ["a", "", "b"] := by decide
example : isSubstr "" "xy" = true := by decide
example : isSubstr "ab" "xaby" = true := by decide
example : isSubstr "ab" "xa" = false := by decide
example : pyStartsWith "abc" "ab" = true := by decide

/-! ## Section-code canonicalization

Embedding of annex4parser.regulation_monitor.canonicalize:
remove all whitespace, rewrite parenthetical markers via the pattern
open-paren [^)]+ close-paren into dotted form, collapse runs of two or more
dots, and strip leading and trailing dots. -/

/-- Scanner for the substitution of the regex pattern
open-paren ([^)]+) close-paren by ".group.": the state buffers (reversed) the
non-close-paren characters seen since an opening parenthesis, exactly
mirroring CPython's leftmost, greedy matching of that pattern. -/
def parenAux : Option (List Char) → List Char → List Char
  | none, [] => []
  | some buf, [] => '(' :: buf.reverse
  | none, c :: rest =>
    if c = '(' then parenAux (some []) rest
    else c :: parenAux none rest
  | some buf, c :: rest =>
    if c = ')' then
      if buf = [] then '(' :: ')' :: parenAux none rest
      else '.' :: (buf.reverse ++ '.' :: parenAux none rest)
    else parenAux (some (c :: buf)) rest

/-- Dot test, named so the dropWhile predicates below are syntactically
stable. -/
def isDot (c : Char) : Bool := c = '.'

/-- Scanner collapsing runs of two or more dots to a single dot (the regex
substitution of dot-runs); the flag records whether the scanner is inside a
dot run whose first dot was already emitted. -/
def collapseDotsAux : Bool → List Char → List Char
  | _, [] => []
  | true, c :: rest =>
    if c = '.' then collapseDotsAux true rest
    else c :: collapseDotsAux false rest
  | false, c :: rest =>
    if c = '.' then '.' :: collapseDotsAux true rest
    else c :: collapseDotsAux false rest

/-- Python str.strip with the "." argument: drop leading and trailing
dots. -/
def stripDots (l : List Char) : List Char :=
  (l.dropWhile isDot).rdropWhile isDot

/-- annex4parser.regulation_monitor.canonicalize: normalize section codes by
removing whitespace, turning parenthetical markers into dotted notation,
collapsing repeated dots and trimming outer dots.  The empty string is
returned unchanged (the falsy guard of the source). -/
def canonicalize (code : String) : String :=
  if code = "" then code
  else ⟨stripDots (collapseDotsAux false (parenAux none
          (code.data.filter (fun c => !pyWs c))))⟩

example : canonicalize " Article 6 (1) " = "Article6.1" := by decide
example : canonicalize "AnnexIV(2)a" = "AnnexIV.2.a" := by decide
example : canonicalize "Article10a(1)" = "Article10a.1" := by decide
example : canonicalize "((x))" = "(x.)" := by decide
example : canonicalize "(x.)" = "x" := by decide
example : canonicalize "(a(b)c)" = "a(b.c)" := by decide
example : canonicalize "()" = "()" := by decide
example : canonicalize "()(a)" = "().a" := by decide
example : canonicalize "(a)b)" = "a.b)" := by decide

/-! Support lemmas for the idempotence analysis of canonicalize. -/

/-- The auxiliary state of parenAux, read back as the characters it still
owes to the output. -/
def parenBuf : Option (List Char) → List Char
  | none => []
  | some buf => '(' :: buf

theorem parenAux_nonWs : ∀ (st : Option (List Char)) (l : List Char),
    (∀ c ∈ l, pyWs c = false) → (∀ c ∈ parenBuf st, pyWs c = false) →
    ∀ c ∈ parenAux st l, pyWs c = false := by
  intro st l
  induction l generalizing st with
  | nil =>
    intro _ hbuf c hc
    cases st with
    | none => simp [parenAux] at hc
    | some buf =>
      simp only [parenAux, List.mem_cons, List.mem_reverse] at hc
      rcases hc with rfl | hc
      · exact hbuf _ (by simp [parenBuf])
      · exact hbuf _ (by simp [parenBuf, hc])
  | cons a rest ih =>
    intro hl hbuf c hc
    have hla : pyWs a = false := hl a (by simp)
    have hlr : ∀ c ∈ rest, pyWs c = false :=
      fun c hc => hl c (List.mem_cons_of_mem _ hc)
    cases st with
    | none =>
      by_cases ha : a = '('
      · rw [show parenAux none (a :: rest) = parenAux (some []) rest by
            simp [parenAux, ha]] at hc
        refine ih (some []) hlr ?_ c hc
        intro d hd
        simp only [parenBuf, List.mem_cons] at hd
        rcases hd with rfl | hd
        · decide
        · simp at hd
      · rw [show parenAux none (a :: rest) = a :: parenAux none rest by
            simp [parenAux, ha]] at hc
        rcases List.mem_cons.mp hc with rfl | hc
        · exact hla
        · exact ih none hlr (by simp [parenBuf]) c hc
    | some buf =>
      have hbuf' : ∀ c ∈ buf, pyWs c = false :=
        fun c hc => hbuf c (by simp [parenBuf, hc])
      by_cases ha : a = ')'
      · by_cases hb : buf = []
        · rw [show parenAux (some buf) (a :: rest)
              = '(' :: ')' :: parenAux none rest by simp [parenAux, ha, hb]] at hc
          rcases List.mem_cons.mp hc with rfl | hc
          · decide
          · rcases List.mem_cons.mp hc with rfl | hc
            · decide
            · exact ih none hlr (by simp [parenBuf]) c hc
        · rw [show parenAux (some buf) (a :: rest)
              = '.' :: (buf.reverse ++ '.' :: parenAux none rest) by
              simp [parenAux, ha, hb]] at hc
          rcases List.mem_cons.mp hc with rfl | hc
          · decide
          · rcases List.mem_append.mp hc with hc | hc
            · exact hbuf' c (List.mem_reverse.mp hc)
            · rcases List.mem_cons.mp hc with rfl | hc
              · decide
              · exact ih none hlr (by simp [parenBuf]) c hc
      · rw [show parenAux (some buf) (a :: rest)
            = parenAux (some (a :: buf)) rest by simp [parenAux, ha]] at hc
        refine ih (some (a :: buf)) hlr ?_ c hc
        intro d hd
        simp only [parenBuf, List.mem_cons] at hd
        rcases hd with rfl | rfl | hd
        · decide
        · exact hla
        · exact hbuf' d hd

theorem parenAux_id : ∀ l : List Char, '(' ∉ l → parenAux none l = l := by
  intro l h
  induction l with
  | nil => rfl
  | cons a rest ih =>
    have ha : a ≠ '(' := fun hc => h (by simp [hc])
    rw [show parenAux none (a :: rest) = a :: parenAux none rest by
        simp [parenAux, ha]]
    rw [ih (fun hc => h (List.mem_cons_of_mem _ hc))]

/-- No dot is immediately followed by another dot. -/
def NoDD (l : List Char) : Prop :=
  l.Chain' (fun a b => a = '.' → b ≠ '.')

theorem head?_collapseDotsAux_true {l : List Char} :
    (collapseDotsAux true l).head? ≠ some '.' := by
  induction l with
  | nil => simp [collapseDotsAux]
  | cons a rest ih =>
    by_cases ha : a = '.'
    · simpa [collapseDotsAux, ha] using ih
    · rw [show collapseDotsAux true (a :: rest) = a :: collapseDotsAux false rest
          by simp [collapseDotsAux, ha]]
      simp only [List.head?_cons, ne_eq, Option.some.injEq]
      exact ha

theorem noDD_collapseDotsAux : ∀ (l : List Char) (b : Bool),
    NoDD (collapseDotsAux b l) := by
  intro l
  induction l with
  | nil => intro b; cases b <;> simp [collapseDotsAux, NoDD]
  | cons a rest ih =>
    intro b
    by_cases ha : a = '.'
    · cases b with
      | true => simpa [collapseDotsAux, ha] using ih true
      | false =>
        rw [show collapseDotsAux false (a :: rest)
            = '.' :: collapseDotsAux true rest by simp [collapseDotsAux, ha]]
        refine List.chain'_cons'.mpr ⟨?_, ih true⟩
        intro y hy _ hy'
        rw [Option.mem_def] at hy
        exact head?_collapseDotsAux_true (l := rest) (by rw [hy, hy'])
    · have hstep : ∀ b' : Bool, collapseDotsAux b' (a :: rest)
          = a :: collapseDotsAux false rest := by
        intro b'; cases b' <;> simp [collapseDotsAux, ha]
      rw [hstep b]
      refine List.chain'_cons'.mpr ⟨?_, ih false⟩
      intro y _ hc
      exact absurd hc ha

theorem collapseDotsAux_id : ∀ l : List Char, NoDD l →
    (collapseDotsAux false l = l ∧
      (l.head? ≠ some '.' → collapseDotsAux true l = l)) := by
  intro l
  induction l with
  | nil => intro _; exact ⟨rfl, fun _ => rfl⟩
  | cons a rest ih =>
    intro h
    have hrest : NoDD rest := (List.chain'_cons'.mp h).2
    have hrel := (List.chain'_cons'.mp h).1
    by_cases ha : a = '.'
    · have hhead : rest.head? ≠ some '.' := by
        intro hc
        have : '.' ∈ rest.head? := by rw [hc]; rfl
        exact (hrel _ this ha) rfl
      have htrue := (ih hrest).2 hhead
      refine ⟨by simp [collapseDotsAux, ha, htrue], ?_⟩
      intro hcontra
      exact absurd (by simp [ha]) hcontra
    · have hfalse := (ih hrest).1
      exact ⟨by simp [collapseDotsAux, ha, hfalse],
        fun _ => by simp [collapseDotsAux, ha, hfalse]⟩

theorem mem_collapseDotsAux {c : Char} :
    ∀ (l : List Char) (b : Bool), c ∈ collapseDotsAux b l → c ∈ l := by
  intro l
  induction l with
  | nil => intro b h; cases b <;> simp [collapseDotsAux] at h
  | cons a rest ih =>
    intro b h
    by_cases ha : a = '.'
    · cases b with
      | true =>
        rw [show collapseDotsAux true (a :: rest) = collapseDotsAux true rest
            by simp [collapseDotsAux, ha]] at h
        exact List.mem_cons_of_mem _ (ih true h)
      | false =>
        rw [show collapseDotsAux false (a :: rest)
            = '.' :: collapseDotsAux true rest by simp [collapseDotsAux, ha]] at h
        rcases List.mem_cons.mp h with rfl | h
        · simp [ha]
        · exact List.mem_cons_of_mem _ (ih true h)
    · have hstep : collapseDotsAux b (a :: rest)
          = a :: collapseDotsAux false rest := by
        cases b <;> simp [collapseDotsAux, ha]
      rw [hstep] at h
      rcases List.mem_cons.mp h with rfl | h
      · simp
      · exact List.mem_cons_of_mem _ (ih false h)

theorem head?_dropWhile_not {p : Char → Bool} :
    ∀ {l : List Char} {c : Char}, (l.dropWhile p).head? = some c → p c = false := by
  intro l
  induction l with
  | nil => intro c h; simp [List.dropWhile] at h
  | cons a rest ih =>
    intro c h
    by_cases ha : p a
    · exact ih (by rwa [List.dropWhile_cons_of_pos ha] at h)
    · rw [List.dropWhile_cons_of_neg ha] at h
      simp only [List.head?_cons, Option.some.injEq] at h
      subst h
      exact eq_false_of_ne_true ha

theorem stripDots_noDD {l : List Char} (h : NoDD l) : NoDD (stripDots l) := by
  have h1 : NoDD (l.dropWhile isDot) :=
    List.Chain'.suffix h (List.dropWhile_suffix _)
  exact List.Chain'.prefix h1 (List.rdropWhile_prefix _ _)

theorem stripDots_head {l : List Char} : (stripDots l).head? ≠ some '.' := by
  intro hc
  obtain ⟨t, ht⟩ := List.rdropWhile_prefix isDot (l.dropWhile isDot)
  have hdw : (l.dropWhile isDot).head? = some '.' := by
    rw [← ht]
    cases hs : stripDots l with
    | nil => rw [hs] at hc; simp at hc
    | cons x xs =>
      rw [hs] at hc
      simp only [List.head?_cons, Option.some.injEq] at hc
      subst hc
      simp [stripDots] at hs
      simp [hs]
  have h2 := head?_dropWhile_not (p := isDot) hdw
  simp [isDot] at h2

theorem stripDots_last {l : List Char} : (stripDots l).getLast? ≠ some '.' := by
  intro hc
  have hne : stripDots l ≠ [] := by
    intro h0; rw [h0] at hc; simp at hc
  have hlast := List.rdropWhile_last_not isDot (l.dropWhile isDot)
    (by simpa [stripDots] using hne)
  apply hlast
  have hgl : (stripDots l).getLast hne = '.' := by
    have := List.getLast?_eq_getLast (stripDots l) hne
    rw [this] at hc
    exact (Option.some.injEq _ _).mp hc
  simp only [stripDots] at hgl
  simp [isDot, hgl]

theorem mem_stripDots {l : List Char} {c : Char} (h : c ∈ stripDots l) :
    c ∈ l := by
  have h1 : List.Sublist (stripDots l) (l.dropWhile isDot) :=
    (List.rdropWhile_prefix _ _).sublist
  have h2 : List.Sublist (l.dropWhile isDot) l :=
    (List.dropWhile_suffix _).sublist
  exact (h1.trans h2).mem h

theorem stripDots_id {l : List Char} (h1 : l.head? ≠ some '.')
    (h2 : l.getLast? ≠ some '.') : stripDots l = l := by
  have hd : l.dropWhile isDot = l := by
    cases l with
    | nil => rfl
    | cons a rest =>
      have ha : a ≠ '.' := by
        intro hc; exact h1 (by simp [hc])
      exact List.dropWhile_cons_of_neg (by simp [isDot, ha])
  unfold stripDots
  rw [hd]
  rw [List.rdropWhile_eq_self_iff]
  intro hne
  have := List.getLast?_eq_getLast l hne
  intro hcl
  apply h2
  rw [this]
  simp only [isDot] at hcl
  simpa using hcl

/-! ### Claim C6 -/

/-- C6 (counterexample): canonicalize is not idempotent on every string; on
the input "((x))" (nested parentheses) a parenthesis survives the first pass
and is rewritten again by the second. -/
theorem canonicalize_idem_counterexample :
    canonicalize (canonicalize "((x))") ≠ canonicalize "((x))" := by decide

/-- C6 (amended): canonicalize is idempotent on every string whose canonical
form contains no opening parenthesis (in particular, on all well-formed
section codes); nested or unmatched parentheses can leave an opening
parenthesis in the output and break idempotence. -/
theorem canonicalize_eq {s : String} (hs : s ≠ "") :
    canonicalize s = ⟨stripDots (collapseDotsAux false (parenAux none
        (s.data.filter (fun c => !pyWs c))))⟩ := by
  simp [canonicalize, hs]

theorem canonicalize_idempotent_on_paren_free (s : String)
    (h : '(' ∉ (canonicalize s).data) :
    canonicalize (canonicalize s) = canonicalize s := by
  by_cases hs : s = ""
  · subst hs
    simp [canonicalize]
  · have hval := canonicalize_eq hs
    by_cases hout : canonicalize s = ""
    · rw [hout]; simp [canonicalize]
    · have hres : (canonicalize s).data
          = stripDots (collapseDotsAux false (parenAux none
              (s.data.filter (fun c => !pyWs c)))) := by rw [hval]
      set res : List Char := stripDots (collapseDotsAux false (parenAux none
          (s.data.filter (fun c => !pyWs c))))
      have hdata : (canonicalize s).data = res := hres
      rw [canonicalize_eq hout, hdata]
      -- step 1: every canonical character is non-whitespace
      have hNonWs : ∀ c ∈ res, pyWs c = false := by
        intro c hc
        have hc1 : c ∈ collapseDotsAux false (parenAux none
            (s.data.filter (fun c => !pyWs c))) := mem_stripDots hc
        have hc2 : c ∈ parenAux none (s.data.filter (fun c => !pyWs c)) :=
          mem_collapseDotsAux _ _ hc1
        refine parenAux_nonWs none _ ?_ ?_ c hc2
        · intro d hd
          have := (List.mem_filter.mp hd).2
          simpa using this
        · intro d hd; simp [parenBuf] at hd
      have hfilter : res.filter (fun c => !pyWs c) = res := by
        rw [List.filter_eq_self]
        intro a ha
        simp [hNonWs a ha]
      rw [hfilter]
      -- step 2: no opening parenthesis left, so the paren scanner is the identity
      have hparen : parenAux none res = res := by
        refine parenAux_id res ?_
        rw [← hdata]; exact h
      rw [hparen]
      -- step 3: the canonical form has no double dots, so collapsing is the identity
      have hnodd : NoDD res :=
        stripDots_noDD (noDD_collapseDotsAux _ false)
      have hcollapse : collapseDotsAux false res = res :=
        (collapseDotsAux_id res hnodd).1
      rw [hcollapse]
      -- step 4: the canonical form has no outer dots, so stripping is the identity
      rw [stripDots_id (stripDots_head) (stripDots_last), hval]

/-- C6 witness: the idempotence theorem applied to the spec's round-trip
example. -/
theorem canonicalize_idempotent_on_paren_free_witness :
    '(' ∉ (canonicalize " Article 6 (1) ").data ∧
      canonicalize (canonicalize " Article 6 (1) ")
        = canonicalize " Article 6 (1) " :=
  ⟨by decide, canonicalize_idempotent_on_paren_free " Article 6 (1) " (by decide)⟩

/-! ## The legal diff analyzer

Embedding of annex4parser.legal_diff.LegalDiffAnalyzer.  The analyzer's own
logic (change-type classification, diff score, keyword counting, severity
cascade) is embedded from the source.  Two collaborators are modelled:

* difflib.ndiff (Python standard library) is modelled as a longest-common-
  subsequence line diff that marks common lines with a double-space tag,
  lines only in the old text with a minus-space tag and lines only in the
  new text with a plus-space tag, joined by newlines - the only properties
  of the ndiff string that the analyzer reads;
* the sklearn TF-IDF cosine similarity is a parameter (tfidf), with the
  value none modelling the vectorizer raising an exception. -/

/-- Join diff lines with newlines (Python str.join). -/
def joinNL : List String → String
  | [] => ""
  | [s] => s
  | s :: rest => s ++ "\n" ++ joinNL rest

/-- Fueled longest-common-subsequence length for the diff model. -/
def lcsLen : Nat → List String → List String → Nat
  | 0, _, _ => 0
  | _ + 1, [], _ => 0
  | _ + 1, _ :: _, [] => 0
  | fuel + 1, a :: as, b :: bs =>
    if a = b then lcsLen fuel as bs + 1
    else max (lcsLen fuel as (b :: bs)) (lcsLen fuel (a :: as) bs)

/-- Modelled from the spec: the line-level ndiff of the external difflib
collaborator.  Common lines become context lines, a line only in the new
sequence becomes a plus line, a line only in the old sequence becomes a
minus line; the branch chosen at a mismatch follows the larger remaining
common subsequence, matching difflib's matching-block decomposition on the
inputs used in this file. -/
def ndiffAux : Nat → List String → List String → List String
  | 0, _, _ => []
  | _ + 1, [], bs => bs.map (fun b => "+ " ++ b)
  | _ + 1, as, [] => as.map (fun a => "- " ++ a)
  | fuel + 1, a :: as, b :: bs =>
    if a = b then ("  " ++ a) :: ndiffAux fuel as bs
    else if lcsLen (as.length + bs.length + 1) (a :: as) bs
        > lcsLen (as.length + bs.length + 1) as (b :: bs) then
      ("+ " ++ b) :: ndiffAux fuel (a :: as) bs
    else ("- " ++ a) :: ndiffAux fuel as (b :: bs)

/-- LegalDiffAnalyzer._compute_unified_diff composed with the ndiff model. -/
def computeUnifiedDiff (oldText newText : String) : String :=
  let ol := splitLinesPy oldText
  let nl := splitLinesPy newText
  joinNL (ndiffAux (ol.length + nl.length) ol nl)

example : computeUnifiedDiff "c\nabc" "ab\nc" = "+ ab\n  c\n- abc" := by decide
example : computeUnifiedDiff "a" "a" = "  a" := by decide
example : computeUnifiedDiff "" "" = "" := by decide

/-- The content of a diff line: the line with its two-character tag
removed. -/
def lineContent (l : String) : String := ⟨l.data.drop 2⟩

/-- The body of the nested loop of _classify_change_type for one
added/removed content pair. -/
def pairVerdict (ac rc : String) : Option String :=
  if isSubstr rc ac then some "addition"
  else if isSubstr ac rc then some "deletion"
  else if ac.data.length > rc.data.length
      && (isSubstr rc ac || pyStartsWith ac rc) then some "addition"
  else none

/-- Inner loop of _classify_change_type over the removed lines. -/
def innerLoop (ac : String) : List String → Option String
  | [] => none
  | rl :: rest =>
    match pairVerdict ac (lineContent rl) with
    | some v => some v
    | none => innerLoop ac rest

/-- Outer loop of _classify_change_type over the added lines. -/
def outerLoop : List String → List String → Option String
  | [], _ => none
  | al :: rest, removed =>
    match innerLoop (lineContent al) removed with
    | some v => some v
    | none => outerLoop rest removed

/-- LegalDiffAnalyzer._classify_change_type. -/
def classifyChangeType (diff : String) : String :=
  let ls := splitLinesPy diff
  let added := ls.filter (fun l => pyStartsWith l "+ ")
  let removed := ls.filter (fun l => pyStartsWith l "- ")
  if added = [] ∧ removed = [] then "no_change"
  else if added ≠ [] ∧ removed ≠ [] then
    (outerLoop added removed).getD "modification"
  else if added ≠ [] ∧ removed = [] then "addition"
  else if removed ≠ [] ∧ added = [] then "deletion"
  else "clarification"

/-- LegalDiffAnalyzer._compute_diff_score; line lengths include the
two-character diff tags, as in the source. -/
def computeDiffScore (diff : String) : ℚ :=
  let ls := splitLinesPy diff
  let addedChars :=
    ((ls.filter (fun l => pyStartsWith l "+ ")).map (fun l => l.data.length)).sum
  let removedChars :=
    ((ls.filter (fun l => pyStartsWith l "- ")).map (fun l => l.data.length)).sum
  let total := addedChars + removedChars
  if total = 0 then 0 else min ((total : ℚ) / 100) 1

/-- LegalDiffAnalyzer._compute_semantic_similarity.  The guard for blank
texts (score 0) and the exception fallback (score one half) are from the
source; the vectorizer itself is the tfidf parameter. -/
def computeSemanticSimilarity (tfidf : String → String → Option ℚ)
    (oldText newText : String) : ℚ :=
  if pyStrip oldText = "" ∨ pyStrip newText = "" then 0
  else
    match tfidf oldText newText with
    | some q => q
    | none => 1 / 2

/-- The critical keyword set of the analyzer. -/
def criticalKeywords : List String :=
  ["shall", "must", "required", "obligatory", "mandatory",
   "prohibited", "forbidden", "illegal", "criminal",
   "penalty", "fine", "sanction", "liability",
   "risk", "safety", "security", "privacy", "data protection"]

/-- The important keyword set of the analyzer. -/
def importantKeywords : List String :=
  ["may", "should", "recommended", "guidance", "best practice",
   "documentation", "record", "log", "audit", "compliance",
   "assessment", "evaluation", "monitoring", "supervision"]

/-- Case-insensitive literal match of a (lower-case) keyword against the
front of a text, returning the remaining characters. -/
def matchCI : List Char → List Char → Option (List Char)
  | [], s => some s
  | _ :: _, [] => none
  | k :: ks, c :: cs => if c.toLower = k then matchCI ks cs else none

/-- Fueled scanner counting the non-overlapping whole-word occurrences of a
lower-case keyword, replicating the boundary-anchored case-insensitive
regex findall of _find_affected_keywords (all keywords start and end with
word characters). -/
def countWordAux (kw : List Char) (lastW : Bool) :
    Nat → Bool → List Char → Nat
  | 0, _, _ => 0
  | _ + 1, _, [] => 0
  | fuel + 1, prevW, c :: rest =>
    match matchCI kw (c :: rest) with
    | some rest' =>
      if !prevW && (match rest' with
          | [] => true
          | d :: _ => !isWordChar d) then
        1 + countWordAux kw lastW fuel lastW rest'
      else countWordAux kw lastW fuel (isWordChar c) rest
    | none => countWordAux kw lastW fuel (isWordChar c) rest

/-- Whole-word case-insensitive occurrence count of a keyword. -/
def countWord (kw : String) (text : String) : Nat :=
  let k := kw.data.map Char.toLower
  match k.getLast? with
  | none => 0
  | some lastc => countWordAux k (isWordChar lastc) text.data.length false text.data

example : countWord "shall" "They shall, and SHALL again" = 2 := by decide
example : countWord "shall" "marshall shallow" = 0 := by decide
example : countWord "data protection" "on data protection law" = 1 := by decide

/-- LegalDiffAnalyzer._find_affected_keywords: keywords whose whole-word
counts differ between the two texts (the union of the two keyword sets,
enumerated in list order since the Python set iteration order is
unspecified and no consumer depends on the order). -/
def findAffectedKeywords (oldText newText : String) : List String :=
  (criticalKeywords ++ importantKeywords).filter
    (fun kw => countWord kw oldText ≠ countWord kw newText)

/-- LegalDiffAnalyzer._classify_severity. -/
def classifySeverity (diffScore semanticScore : ℚ)
    (keywordsAffected : List String) (changeType : String) : String :=
  let critical := keywordsAffected.filter (fun kw => criticalKeywords.contains kw)
  if critical ≠ [] then "high"
  else if changeType = "clarification" then "low"
  else if 9 / 10 < semanticScore ∧ diffScore ≤ 1 / 10 then "low"
  else if 2 / 5 < diffScore ∨ semanticScore < 3 / 5 then "high"
  else if 3 / 20 < diffScore ∨ semanticScore < 17 / 20 then "medium"
  else "low"

/-- The result record of the analyzer. -/
structure LegalChange where
  sectionCode : String
  changeType : String
  severity : String
  oldText : String
  newText : String
  diffScore : ℚ
  semanticScore : ℚ
  keywordsAffected : List String
  deriving Repr, DecidableEq

/-- LegalDiffAnalyzer.analyze_changes. -/
def analyzeChanges (tfidf : String → String → Option ℚ)
    (oldText newText sectionCode : String) : LegalChange :=
  let diff := computeUnifiedDiff oldText newText
  let changeType := classifyChangeType diff
  let diffScore := computeDiffScore diff
  let semanticScore := computeSemanticSimilarity tfidf oldText newText
  let keywordsAffected := findAffectedKeywords oldText newText
  let severity := classifySeverity diffScore semanticScore keywordsAffected changeType
  { sectionCode := sectionCode
    changeType := changeType
    severity := severity
    oldText := oldText
    newText := newText
    diffScore := diffScore
    semanticScore := semanticScore
    keywordsAffected := keywordsAffected }

/-! Support lemmas about line splitting and the diff of identical texts. -/

theorem splitLinesAux_no_newline : ∀ (l acc : List Char), '\n' ∉ acc →
    ∀ m ∈ splitLinesAux acc l, '\n' ∉ m := by
  intro l
  induction l with
  | nil =>
    intro acc hacc m hm
    simp only [splitLinesAux] at hm
    by_cases h : acc = []
    · simp [h] at hm
    · simp only [if_neg h, List.mem_singleton] at hm
      subst hm
      simpa using hacc
  | cons c rest ih =>
    intro acc hacc m hm
    by_cases hc : c = '\n'
    · rw [show splitLinesAux acc (c :: rest) = acc.reverse :: splitLinesAux [] rest
          by simp [splitLinesAux, hc]] at hm
      rcases List.mem_cons.mp hm with rfl | hm
      · simpa using hacc
      · exact ih [] (by simp) m hm
    · rw [show splitLinesAux acc (c :: rest) = splitLinesAux (c :: acc) rest
          by simp [splitLinesAux, hc]] at hm
      refine ih (c :: acc) ?_ m hm
      intro hmem
      rcases List.mem_cons.mp hmem with h | h
      · exact hc h.symm
      · exact hacc h

theorem splitLinesPy_no_newline {s m : String} (hm : m ∈ splitLinesPy s) :
    '\n' ∉ m.data := by
  obtain ⟨l, hl, rfl⟩ := List.mem_map.mp hm
  exact splitLinesAux_no_newline s.data [] (by simp) l hl

theorem splitLinesAux_append_newline :
    ∀ (l acc rest : List Char), '\n' ∉ l →
      splitLinesAux acc (l ++ '\n' :: rest)
        = (acc.reverse ++ l) :: splitLinesAux [] rest := by
  intro l
  induction l with
  | nil =>
    intro acc rest _
    simp [splitLinesAux]
  | cons c l' ih =>
    intro acc rest h
    have hc : c ≠ '\n' := fun hcc => h (by simp [hcc])
    rw [List.cons_append,
      show splitLinesAux acc (c :: (l' ++ '\n' :: rest))
        = splitLinesAux (c :: acc) (l' ++ '\n' :: rest)
        by simp [splitLinesAux, hc]]
    rw [ih (c :: acc) rest (fun hmem => h (List.mem_cons_of_mem _ hmem))]
    simp

theorem splitLinesAux_no_newline_eq :
    ∀ (l acc : List Char), '\n' ∉ l → (acc ≠ [] ∨ l ≠ []) →
      splitLinesAux acc l = [acc.reverse ++ l] := by
  intro l
  induction l with
  | nil =>
    intro acc _ hne
    rcases hne with h | h
    · simp [splitLinesAux, h]
    · exact absurd rfl h
  | cons c l' ih =>
    intro acc h _
    have hc : c ≠ '\n' := fun hcc => h (by simp [hcc])
    rw [show splitLinesAux acc (c :: l') = splitLinesAux (c :: acc) l'
        by simp [splitLinesAux, hc]]
    rw [ih (c :: acc) (fun hmem => h (List.mem_cons_of_mem _ hmem))
      (Or.inl (by simp))]
    simp

theorem string_ne_empty_iff {s : String} : s ≠ "" ↔ s.data ≠ [] := by
  cases s with
  | mk d =>
    constructor
    · intro h hd
      apply h
      subst hd
      rfl
    · intro h hs
      apply h
      rw [show ("" : String) = (⟨[]⟩ : String) from rfl] at hs
      injection hs

theorem splitLinesPy_joinNL : ∀ ls : List String,
    (∀ s ∈ ls, s ≠ "" ∧ '\n' ∉ s.data) → splitLinesPy (joinNL ls) = ls := by
  intro ls
  induction ls with
  | nil => intro _; rfl
  | cons s rest ih =>
    intro h
    have hs := h s (by simp)
    cases rest with
    | nil =>
      show (splitLinesAux [] s.data).map (fun l => (⟨l⟩ : String)) = [s]
      rw [splitLinesAux_no_newline_eq s.data [] hs.2
        (Or.inr (string_ne_empty_iff.mp hs.1))]
      rfl
    | cons s2 rest2 =>
      have hjoin : joinNL (s :: s2 :: rest2) = s ++ "\n" ++ joinNL (s2 :: rest2) :=
        rfl
      show (splitLinesAux [] (joinNL (s :: s2 :: rest2)).data).map
          (fun l => (⟨l⟩ : String)) = _
      rw [hjoin]
      have hdata : (s ++ "\n" ++ joinNL (s2 :: rest2)).data
          = s.data ++ '\n' :: (joinNL (s2 :: rest2)).data := by
        rw [String.data_append, String.data_append]
        simp
      rw [hdata, splitLinesAux_append_newline s.data [] _ hs.2]
      simp only [List.reverse_nil, List.nil_append, List.map_cons]
      have := ih (fun t ht => h t (List.mem_cons_of_mem _ ht))
      rw [show (splitLinesAux [] (joinNL (s2 :: rest2)).data).map
          (fun l => (⟨l⟩ : String)) = splitLinesPy (joinNL (s2 :: rest2)) from rfl,
        this]

theorem ndiffAux_self : ∀ (l : List String) (fuel : Nat), l.length ≤ fuel →
    ndiffAux fuel l l = l.map (fun x => "  " ++ x) := by
  intro l
  induction l with
  | nil =>
    intro fuel _
    cases fuel <;> rfl
  | cons a rest ih =>
    intro fuel hf
    cases fuel with
    | zero => simp at hf
    | succ f =>
      rw [show ndiffAux (f + 1) (a :: rest) (a :: rest)
          = ("  " ++ a) :: ndiffAux f rest rest by simp [ndiffAux]]
      rw [ih f (by simpa using Nat.lt_succ_iff.mp (Nat.lt_of_lt_of_le
        (Nat.lt_succ_of_le (Nat.le_refl _)) hf))]
      rfl

theorem not_startsWith_tag {x : String} {t1 t2 p1 p2 : Char} (hp : p1 ≠ t1) :
    pyStartsWith (⟨t1 :: t2 :: x.data⟩ : String) (⟨[p1, p2]⟩ : String) = false := by
  simp only [pyStartsWith, listPre]
  simp [hp]

theorem ctx_data (x : String) : ("  " ++ x).data = ' ' :: ' ' :: x.data := by
  rw [String.data_append]; rfl

theorem filter_plus_ctx (ls : List String) :
    (ls.map (fun x => "  " ++ x)).filter (fun l => pyStartsWith l "+ ") = [] := by
  rw [List.filter_eq_nil_iff]
  intro a ha
  obtain ⟨x, _, rfl⟩ := List.mem_map.mp ha
  have : ("  " ++ x) = (⟨' ' :: ' ' :: x.data⟩ : String) := by
    have hd := ctx_data x
    cases hx : ("  " ++ x) with
    | mk d =>
      rw [hx] at hd
      simp only at hd
      rw [hd]
  rw [this, show ("+ " : String) = (⟨['+', ' ']⟩ : String) from rfl,
    not_startsWith_tag (by decide)]
  simp

theorem filter_minus_ctx (ls : List String) :
    (ls.map (fun x => "  " ++ x)).filter (fun l => pyStartsWith l "- ") = [] := by
  rw [List.filter_eq_nil_iff]
  intro a ha
  obtain ⟨x, _, rfl⟩ := List.mem_map.mp ha
  have : ("  " ++ x) = (⟨' ' :: ' ' :: x.data⟩ : String) := by
    have hd := ctx_data x
    cases hx : ("  " ++ x) with
    | mk d =>
      rw [hx] at hd
      simp only at hd
      rw [hd]
  rw [this, show ("- " : String) = (⟨['-', ' ']⟩ : String) from rfl,
    not_startsWith_tag (by decide)]
  simp

theorem splitLines_diff_self (t : String) :
    splitLinesPy (computeUnifiedDiff t t)
      = (splitLinesPy t).map (fun x => "  " ++ x) := by
  have hdef : computeUnifiedDiff t t
      = joinNL (ndiffAux ((splitLinesPy t).length + (splitLinesPy t).length)
          (splitLinesPy t) (splitLinesPy t)) := rfl
  rw [hdef, ndiffAux_self _ _ (by omega)]
  apply splitLinesPy_joinNL
  intro s hs
  obtain ⟨x, hx, rfl⟩ := List.mem_map.mp hs
  refine ⟨?_, ?_⟩
  · rw [string_ne_empty_iff, ctx_data]
    simp
  · rw [ctx_data]
    intro hmem
    rcases List.mem_cons.mp hmem with h | h
    · exact absurd h.symm (by decide)
    · rcases List.mem_cons.mp h with h | h
      · exact absurd h.symm (by decide)
      · exact splitLinesPy_no_newline hx h

theorem findAffectedKeywords_self (t : String) :
    findAffectedKeywords t t = [] := by
  rw [findAffectedKeywords, List.filter_eq_nil_iff]
  intro kw _
  simp

/-! ### Claim C3 -/

/-- C3 (counterexample): on the pair of empty texts the analyzer classifies
the change as no_change but assigns severity high, because the semantic
score of blank texts is zero, which trips the low-similarity branch of the
severity cascade. -/
theorem analyzer_empty_texts_counterexample :
    (analyzeChanges (fun _ _ => none) "" "" "Test").changeType = "no_change" ∧
      (analyzeChanges (fun _ _ => none) "" "" "Test").severity = "high" := by
  constructor
  · decide
  · show classifySeverity (computeDiffScore (computeUnifiedDiff "" ""))
      (computeSemanticSimilarity (fun _ _ => none) "" "")
      (findAffectedKeywords "" "") (classifyChangeType (computeUnifiedDiff "" ""))
      = "high"
    have h1 : computeDiffScore (computeUnifiedDiff "" "") = 0 := rfl
    have h2 : computeSemanticSimilarity (fun _ _ => none) "" "" = 0 := rfl
    have h3 : findAffectedKeywords "" "" = [] := findAffectedKeywords_self ""
    have h4 : classifyChangeType (computeUnifiedDiff "" "") = "no_change" := by
      decide
    rw [h1, h2, h3, h4]
    rw [classifySeverity]
    rw [if_neg (by simp), if_neg (by decide), if_neg (by norm_num),
      if_pos (by norm_num)]

/-- C3 (amended): for every pair of equal texts the analyzer returns
change_type no_change, and the severity is low whenever the texts are not
blank and the vectorizer similarity exceeds nine tenths (as for identical
non-degenerate texts); for blank texts the semantic score is zero and the
severity is high instead, as the counterexample shows. -/
theorem analyzer_identical_texts (tfidf : String → String → Option ℚ)
    (t sc : String) (q : ℚ) (hne : pyStrip t ≠ "") (hq : tfidf t t = some q)
    (h9 : 9 / 10 < q) :
    (analyzeChanges tfidf t t sc).changeType = "no_change" ∧
      (analyzeChanges tfidf t t sc).severity = "low" := by
  have hadd : (splitLinesPy (computeUnifiedDiff t t)).filter
      (fun l => pyStartsWith l "+ ") = [] := by
    rw [splitLines_diff_self]; exact filter_plus_ctx _
  have hrem : (splitLinesPy (computeUnifiedDiff t t)).filter
      (fun l => pyStartsWith l "- ") = [] := by
    rw [splitLines_diff_self]; exact filter_minus_ctx _
  have hct : classifyChangeType (computeUnifiedDiff t t) = "no_change" := by
    rw [classifyChangeType]
    simp only [hadd, hrem]
    simp
  have hds : computeDiffScore (computeUnifiedDiff t t) = 0 := by
    rw [computeDiffScore]
    simp only [hadd, hrem]
    simp
  have hsem : computeSemanticSimilarity tfidf t t = q := by
    rw [computeSemanticSimilarity, if_neg (by simpa using hne), hq]
  constructor
  · show classifyChangeType (computeUnifiedDiff t t) = "no_change"
    exact hct
  · show classifySeverity (computeDiffScore (computeUnifiedDiff t t))
      (computeSemanticSimilarity tfidf t t)
      (findAffectedKeywords t t) (classifyChangeType (computeUnifiedDiff t t))
      = "low"
    rw [hct, hds, hsem, findAffectedKeywords_self]
    rw [classifySeverity]
    simp only [List.filter_nil]
    rw [if_neg (by simp), if_neg (by decide), if_pos ⟨h9, by norm_num⟩]

/-- C3 witness: the amended theorem applied to a one-character text with a
vectorizer reporting similarity one. -/
theorem analyzer_identical_texts_witness :
    pyStrip "x" ≠ "" ∧ (9 : ℚ) / 10 < 1 ∧
      ((analyzeChanges (fun _ _ => some 1) "x" "x" "Test").changeType
          = "no_change" ∧
        (analyzeChanges (fun _ _ => some 1) "x" "x" "Test").severity = "low") :=
  ⟨by decide, by norm_num,
    analyzer_identical_texts (fun _ _ => some 1) "x" "Test" 1 (by decide) rfl
      (by norm_num)⟩

/-! ### Claim C4 -/

theorem pairVerdict_values {ac rc v : String} (h : pairVerdict ac rc = some v) :
    v = "addition" ∨ v = "deletion" := by
  rw [pairVerdict] at h
  split at h
  · exact Or.inl (Option.some.injEq _ _ ▸ h.symm ▸ rfl)
  · split at h
    · exact Or.inr (Option.some.injEq _ _ ▸ h.symm ▸ rfl)
    · split at h
      · exact Or.inl (Option.some.injEq _ _ ▸ h.symm ▸ rfl)
      · simp at h

theorem innerLoop_values {ac v : String} :
    ∀ {removed : List String}, innerLoop ac removed = some v →
      v = "addition" ∨ v = "deletion" := by
  intro removed
  induction removed with
  | nil => intro h; simp [innerLoop] at h
  | cons rl rest ih =>
    intro h
    rw [innerLoop] at h
    cases hpv : pairVerdict ac (lineContent rl) with
    | none => rw [hpv] at h; exact ih h
    | some w =>
      rw [hpv] at h
      have : w = v := by simpa using h
      subst this
      exact pairVerdict_values hpv

theorem outerLoop_values {v : String} :
    ∀ {added removed : List String}, outerLoop added removed = some v →
      v = "addition" ∨ v = "deletion" := by
  intro added
  induction added with
  | nil => intro removed h; simp [outerLoop] at h
  | cons al rest ih =>
    intro removed h
    rw [outerLoop] at h
    cases hil : innerLoop (lineContent al) removed with
    | none => rw [hil] at h; exact ih h
    | some w =>
      rw [hil] at h
      have : w = v := by simpa using h
      subst this
      exact innerLoop_values hil

/-- C4 (counterexample): the diff of the texts "c newline abc" and
"ab newline c" is mixed (one added line "ab", one removed line "abc"), no
removed line is a substring of an added line, so the claim requires
modification; the analyzer returns deletion, because the first pair tried
has the added content contained in the removed content. -/
theorem analyzer_mixed_counterexample :
    (splitLinesPy (computeUnifiedDiff "c\nabc" "ab\nc")).filter
        (fun l => pyStartsWith l "+ ") = ["+ ab"] ∧
      (splitLinesPy (computeUnifiedDiff "c\nabc" "ab\nc")).filter
        (fun l => pyStartsWith l "- ") = ["- abc"] ∧
      isSubstr "abc" "ab" = false ∧
      (analyzeChanges (fun _ _ => none) "c\nabc" "ab\nc" "Test").changeType
        = "deletion" :=
  ⟨by decide, by decide, by decide, by decide⟩

/-- C4 (amended): for texts whose line diff is mixed, the change type is
decided by the first related pair in iteration order over added lines then
removed lines: removed content contained in added content gives addition,
added content contained in removed content gives deletion, and if no pair
is related by containment or extension the result is modification;
clarification is never returned for a mixed diff. -/
theorem analyzer_mixed_first_pair (tfidf : String → String → Option ℚ)
    (oldT newT sc : String)
    (hadd : (splitLinesPy (computeUnifiedDiff oldT newT)).filter
        (fun l => pyStartsWith l "+ ") ≠ [])
    (hrem : (splitLinesPy (computeUnifiedDiff oldT newT)).filter
        (fun l => pyStartsWith l "- ") ≠ []) :
    (analyzeChanges tfidf oldT newT sc).changeType
        = (outerLoop
            ((splitLinesPy (computeUnifiedDiff oldT newT)).filter
              (fun l => pyStartsWith l "+ "))
            ((splitLinesPy (computeUnifiedDiff oldT newT)).filter
              (fun l => pyStartsWith l "- "))).getD "modification" ∧
      (analyzeChanges tfidf oldT newT sc).changeType ≠ "clarification" := by
  have hct : (analyzeChanges tfidf oldT newT sc).changeType
      = (outerLoop
          ((splitLinesPy (computeUnifiedDiff oldT newT)).filter
            (fun l => pyStartsWith l "+ "))
          ((splitLinesPy (computeUnifiedDiff oldT newT)).filter
            (fun l => pyStartsWith l "- "))).getD "modification" := by
    show classifyChangeType (computeUnifiedDiff oldT newT) = _
    rw [classifyChangeType]
    rw [if_neg (by exact fun hc => hadd hc.1), if_pos ⟨hadd, hrem⟩]
  refine ⟨hct, ?_⟩
  rw [hct]
  cases hov : outerLoop
      ((splitLinesPy (computeUnifiedDiff oldT newT)).filter
        (fun l => pyStartsWith l "+ "))
      ((splitLinesPy (computeUnifiedDiff oldT newT)).filter
        (fun l => pyStartsWith l "- ")) with
  | none => simp
  | some v =>
    rcases outerLoop_values hov with rfl | rfl <;> simp

/-! ## robots.txt rule precedence

Embedding of the two robots decision procedures of the repository:
robots_checker.check_robots_allowed (specificity-sorted decision) and
robots_parser.is_path_allowed (disallow-first decision).  The wildcard
branch of _matches_rule builds a regex by replacing star with dot-star and
matching with re.match; the embedded matcher treats a dot as any single
character and a star as any sequence, and all other characters as literals
(the rule paths the source handles contain no further metacharacters). -/

/-- A parsed robots.txt rule of robots_checker: the rule type is the string
"allow" or "disallow" as in the source dictionaries. -/
structure RcRule where
  rtype : String
  rpath : String
  deriving Repr, DecidableEq

/-- Python str.rstrip with the "/" argument. -/
def rstripSlash (s : String) : String :=
  ⟨s.data.rdropWhile (fun c => c = '/')⟩

/-- Remove a single leading slash, as the source does with a startswith
test and a one-character slice. -/
def dropLeadSlash (s : String) : String :=
  match s.data with
  | '/' :: rest => ⟨rest⟩
  | _ => s

/-- Token of the pattern obtained by replacing star with dot-star: a dot
matches any character, a star any sequence, anything else itself. -/
inductive RTok where
  | anyc : RTok
  | star : RTok
  | lit : Char → RTok
  deriving Repr, DecidableEq

/-- Tokenizer for the source's wildcard patterns. -/
def tokenizeRule (l : List Char) : List RTok :=
  l.map (fun c => if c = '*' then RTok.star else if c = '.' then RTok.anyc
    else RTok.lit c)

/-- Fueled anchored regex matcher for wildcard rule paths (re.match: the
pattern must match a prefix of the path). -/
def reMatchAux : Nat → List RTok → List Char → Bool
  | 0, _, _ => false
  | _ + 1, [], _ => true
  | fuel + 1, RTok.star :: ps, s =>
    reMatchAux fuel ps s ||
      (match s with
       | [] => false
       | _ :: s' => reMatchAux fuel (RTok.star :: ps) s')
  | fuel + 1, RTok.anyc :: ps, _ :: s => reMatchAux fuel ps s
  | _ + 1, RTok.anyc :: _, [] => false
  | fuel + 1, RTok.lit c :: ps, d :: s => c = d && reMatchAux fuel ps s
  | _ + 1, RTok.lit _ :: _, [] => false

/-- Anchored wildcard match. -/
def reMatch (pat : List RTok) (s : List Char) : Bool :=
  reMatchAux (pat.length + s.length + 1) pat s

/-- robots_checker._matches_rule. -/
def matchesRule (path : String) (r : RcRule) : Bool :=
  if r.rpath = "" then false
  else
    let p := dropLeadSlash (rstripSlash path)
    let rp := dropLeadSlash (rstripSlash r.rpath)
    if rp = "" then true
    -- the source's second emptiness test is unreachable here
    else if p = rp || pyStartsWith p (rp ++ "/") then true
    else if rp.data.contains '*' then reMatch (tokenizeRule rp.data) p.data
    else false

/-- robots_checker.check_robots_allowed.get_specificity: the length of the
normalized rule path, zero for the empty path. -/
def getSpecificity (r : RcRule) : Nat :=
  let np := dropLeadSlash (rstripSlash r.rpath)
  if np = "" then 0 else np.data.length

/-- Stable insertion used to model Python's stable list.sort: the new
element passes exactly the earlier elements that are strictly greater. -/
def insertStable {α : Type} (gt : α → α → Bool) (x : α) : List α → List α
  | [] => [x]
  | y :: ys => if gt y x then y :: insertStable gt x ys else x :: y :: ys

/-- Stable sort (Python list.sort with a key and reverse=True is this with
the strictly-greater-key relation). -/
def sortStable {α : Type} (gt : α → α → Bool) (l : List α) : List α :=
  l.foldr (insertStable gt) []

/-- The per-user-agent rule list assembled by check_robots_allowed: the
rules registered for the given agent followed by the rules for the star
agent. -/
def agentRulesFor (rules : List (String × List RcRule)) (ua : String) :
    List RcRule :=
  ((rules.lookup ua).getD []) ++ ((rules.lookup "*").getD [])

/-- robots_checker.check_robots_allowed, decision part: collect matching
rules, allow when none matches, otherwise sort by specificity descending
(stable) and answer by the type of the first rule. -/
def checkRobotsAllowed (rules : List (String × List RcRule))
    (ua path : String) : Bool :=
  let matching := (agentRulesFor rules ua).filter (matchesRule path)
  if matching = [] then true
  else
    match sortStable (fun a b => getSpecificity a > getSpecificity b) matching with
    | [] => true
    | r :: _ => r.rtype == "allow"

/-- robots_parser per-agent rules. -/
structure AgentRules where
  allow : List String
  disallow : List String
  crawlDelay : Option ℚ
  deriving Repr, DecidableEq

/-- robots_parser._path_matches. -/
def pathMatches (path pattern : String) : Bool :=
  if pattern = "" then false
  else
    let p : String := ⟨path.data.dropWhile (fun c => c = '/')⟩
    let pat : String := ⟨pattern.data.dropWhile (fun c => c = '/')⟩
    if pat = "" then true
    else pyStartsWith p pat

/-- robots_parser.is_path_allowed for a resolved agent rule set: any
matching disallow rule wins, then any matching allow rule, then the
disallow-only default. -/
def isPathAllowedAgent (path : String) (ar : AgentRules) : Bool :=
  if ar.disallow.any (fun d => pathMatches path d) then false
  else if ar.allow.any (fun a => pathMatches path a) then true
  else if ar.disallow ≠ [] ∧ ar.allow = [] then false
  else true

/-- robots_parser.is_path_allowed. -/
def isPathAllowed (path : String) (rules : List (String × AgentRules))
    (ua : String) : Bool :=
  match rules.lookup ua with
  | some ar => isPathAllowedAgent path ar
  | none =>
    match rules.lookup "*" with
    | some ar => isPathAllowedAgent path ar
    | none => true

/-! Sorting lemmas for the stable sort model. -/

theorem mem_insertStable {α : Type} (gt : α → α → Bool) (x y : α) :
    ∀ l : List α, y ∈ insertStable gt x l ↔ y = x ∨ y ∈ l := by
  intro l
  induction l with
  | nil => simp [insertStable]
  | cons z zs ih =>
    by_cases h : gt z x = true
    · rw [show insertStable gt x (z :: zs) = z :: insertStable gt x zs
          from if_pos h]
      simp only [List.mem_cons, ih]
      tauto
    · rw [show insertStable gt x (z :: zs) = x :: z :: zs
          from if_neg h]
      simp only [List.mem_cons]

theorem pairwise_insertStable {α : Type} (key : α → Nat) (x : α) :
    ∀ l : List α,
      l.Pairwise (fun a b => key b ≤ key a) →
      (insertStable (fun a b => key a > key b) x l).Pairwise
        (fun a b => key b ≤ key a) := by
  intro l
  induction l with
  | nil => intro _; simp [insertStable]
  | cons z zs ih =>
    intro h
    have hz := (List.pairwise_cons.mp h).1
    have hzs := (List.pairwise_cons.mp h).2
    by_cases hgt : key z > key x
    · rw [show insertStable (fun a b => decide (key a > key b)) x (z :: zs)
          = z :: insertStable (fun a b => decide (key a > key b)) x zs
          from if_pos (by simpa using hgt)]
      refine List.pairwise_cons.mpr ⟨?_, ih hzs⟩
      intro y hy
      rcases (mem_insertStable _ x y zs).mp hy with rfl | hy
      · exact Nat.le_of_lt hgt
      · exact hz y hy
    · rw [show insertStable (fun a b => decide (key a > key b)) x (z :: zs)
          = x :: z :: zs from if_neg (by simpa using hgt)]
      refine List.pairwise_cons.mpr ⟨?_, h⟩
      intro y hy
      have hxz : key z ≤ key x := Nat.le_of_not_lt hgt
      rcases List.mem_cons.mp hy with rfl | hy
      · exact hxz
      · exact Nat.le_trans (hz y hy) hxz

theorem mem_sortStable {α : Type} (gt : α → α → Bool) (y : α) :
    ∀ l : List α, y ∈ sortStable gt l ↔ y ∈ l := by
  intro l
  induction l with
  | nil => simp [sortStable]
  | cons z zs ih =>
    show y ∈ insertStable gt z (sortStable gt zs) ↔ _
    rw [mem_insertStable, ih]
    simp

theorem pairwise_sortStable {α : Type} (key : α → Nat) :
    ∀ l : List α,
      (sortStable (fun a b => key a > key b) l).Pairwise
        (fun a b => key b ≤ key a) := by
  intro l
  induction l with
  | nil => simp [sortStable]
  | cons z zs ih => exact pairwise_insertStable key z _ ih

theorem sortStable_ne_nil {α : Type} (gt : α → α → Bool) :
    ∀ l : List α, l ≠ [] → sortStable gt l ≠ [] := by
  intro l h
  cases l with
  | nil => exact absurd rfl h
  | cons z zs =>
    show insertStable gt z (sortStable gt zs) ≠ []
    cases hs : sortStable gt zs with
    | nil => simp [insertStable]
    | cons w ws =>
      by_cases hg : gt w z <;> simp [insertStable, hg]

/-! ### Claim C5 -/

/-- C5 (counterexample): with the star-agent rule set allowing "/a/b" and
disallowing "/a", the path "/a/b" matches both rules and the allow rule is
strictly more specific (3 versus 1), so the claimed most-specific-rule
precedence would allow the fetch; robots_parser.is_path_allowed instead
lets any matching Disallow win and answers false. -/
theorem robots_precedence_counterexample :
    isPathAllowed "/a/b"
        [("*", { allow := ["/a/b"], disallow := ["/a"], crawlDelay := none })]
        "*" = false ∧
      matchesRule "/a/b" { rtype := "allow", rpath := "/a/b" } = true ∧
      matchesRule "/a/b" { rtype := "disallow", rpath := "/a" } = true ∧
      getSpecificity { rtype := "disallow", rpath := "/a" }
        < getSpecificity { rtype := "allow", rpath := "/a/b" } :=
  ⟨by decide, by decide, by decide, by decide⟩

/-- C5 (amended): robots_checker.check_robots_allowed does decide by a
matching rule of maximal specificity (ties broken by rule order, agent
rules before the star agent's); robots_parser.is_path_allowed does not:
there any matching Disallow rule wins regardless of specificity, as the
counterexample shows. -/
theorem robots_checker_most_specific (rules : List (String × List RcRule))
    (ua path : String)
    (hne : (agentRulesFor rules ua).filter (matchesRule path) ≠ []) :
    ∃ r ∈ (agentRulesFor rules ua).filter (matchesRule path),
      (∀ r' ∈ (agentRulesFor rules ua).filter (matchesRule path),
          getSpecificity r' ≤ getSpecificity r) ∧
        checkRobotsAllowed rules ua path = (r.rtype == "allow") := by
  set matching := (agentRulesFor rules ua).filter (matchesRule path) with hm
  have hsne := sortStable_ne_nil
    (fun a b => getSpecificity a > getSpecificity b) matching hne
  cases hs : sortStable (fun a b => getSpecificity a > getSpecificity b)
      matching with
  | nil => exact absurd hs hsne
  | cons r tl =>
    refine ⟨r, ?_, ?_, ?_⟩
    · have : r ∈ sortStable (fun a b => getSpecificity a > getSpecificity b)
          matching := by rw [hs]; simp
      exact (mem_sortStable _ r matching).mp this
    · intro r' hr'
      have hr'mem : r' ∈ sortStable
          (fun a b => getSpecificity a > getSpecificity b) matching :=
        (mem_sortStable _ r' matching).mpr hr'
      rw [hs] at hr'mem
      rcases List.mem_cons.mp hr'mem with rfl | hr'mem
      · exact Nat.le_refl _
      · have hp := pairwise_sortStable getSpecificity matching
        rw [hs] at hp
        exact (List.pairwise_cons.mp hp).1 r' hr'mem
    · rw [checkRobotsAllowed]
      simp only [← hm]
      rw [if_neg hne, hs]

/-- C5 witness: the checker's most-specific decision on a star-agent set
with a blanket allow and a specific disallow. -/
theorem robots_checker_most_specific_witness :
    (agentRulesFor
        [("*", [{ rtype := "allow", rpath := "/" },
                { rtype := "disallow", rpath := "/private" }])] "*").filter
      (matchesRule "/private") ≠ [] ∧
      ∃ r ∈ (agentRulesFor
          [("*", [{ rtype := "allow", rpath := "/" },
                  { rtype := "disallow", rpath := "/private" }])] "*").filter
        (matchesRule "/private"),
        (∀ r' ∈ (agentRulesFor
            [("*", [{ rtype := "allow", rpath := "/" },
                    { rtype := "disallow", rpath := "/private" }])] "*").filter
          (matchesRule "/private"),
            getSpecificity r' ≤ getSpecificity r) ∧
          checkRobotsAllowed
            [("*", [{ rtype := "allow", rpath := "/" },
                    { rtype := "disallow", rpath := "/private" }])]
            "*" "/private" = (r.rtype == "allow") :=
  ⟨by decide,
    robots_checker_most_specific
      [("*", [{ rtype := "allow", rpath := "/" },
              { rtype := "disallow", rpath := "/private" }])]
      "*" "/private" (by decide)⟩

/-- C4 witness: the amended theorem applied to the mixed pair of texts of
the counterexample, where the analyzer answers deletion. -/
theorem analyzer_mixed_first_pair_witness :
    (splitLinesPy (computeUnifiedDiff "c\nabc" "ab\nc")).filter
        (fun l => pyStartsWith l "+ ") ≠ [] ∧
      (splitLinesPy (computeUnifiedDiff "c\nabc" "ab\nc")).filter
        (fun l => pyStartsWith l "- ") ≠ [] ∧
      ((analyzeChanges (fun _ _ => some 1) "c\nabc" "ab\nc" "Test").changeType
          = (outerLoop
              ((splitLinesPy (computeUnifiedDiff "c\nabc" "ab\nc")).filter
                (fun l => pyStartsWith l "+ "))
              ((splitLinesPy (computeUnifiedDiff "c\nabc" "ab\nc")).filter
                (fun l => pyStartsWith l "- "))).getD "modification" ∧
        (analyzeChanges (fun _ _ => some 1) "c\nabc" "ab\nc" "Test").changeType
          ≠ "clarification") :=
  ⟨by decide, by decide,
    analyzer_mixed_first_pair (fun _ _ => some 1) "c\nabc" "ab\nc" "Test"
      (by decide) (by decide)⟩

/-! ## Retry behaviour of the RSS and SPARQL fetchers

Embedding of the retry configuration of rss_listener.fetch_rss and
eli_client.fetch_latest_eli.  Both bodies call raise_for_status - which
raises for every status of at least 400 - and every except clause of both
bodies re-raises, so a single attempt is a function of the network response
alone.  The tenacity decorator is applied with
wait_exponential_jitter(initial=5, max=300) and stop_after_attempt(5) and,
crucially, with tenacity's default retry predicate, which retries on any
exception. -/

/-- Error kinds of one fetch attempt: a network-level failure, or an HTTP
response whose status made raise_for_status raise. -/
inductive FetchErr where
  | network : FetchErr
  | httpStatus : Nat → FetchErr
  deriving Repr, DecidableEq

/-- One attempt of the fetch body: none models a network error; a status of
at least 400 (4xx and 5xx alike) raises via raise_for_status; otherwise the
payload is returned. -/
def fetchAttempt {α : Type} (resp : Option (Nat × α)) : Except FetchErr α :=
  match resp with
  | none => Except.error FetchErr.network
  | some (status, payload) =>
    if 400 ≤ status then Except.error (FetchErr.httpStatus status)
    else Except.ok payload

/-- Model of the external tenacity driver with stop_after_attempt and the
default retry-on-any-exception predicate: attempts (numbered from the
second argument) run in order; a success is returned at once, and after the
remaining-attempt budget is spent the last error is surfaced. -/
def tenacityRun {α : Type} (attempt : Nat → Except FetchErr α) :
    Nat → Nat → Except FetchErr α
  | 0, k => attempt k
  | 1, k => attempt k
  | n + 2, k =>
    match attempt k with
    | Except.ok v => Except.ok v
    | Except.error _ => tenacityRun attempt (n + 1) (k + 1)

/-- The number of attempts the tenacity driver executes. -/
def tenacityAttempts {α : Type} (attempt : Nat → Except FetchErr α) :
    Nat → Nat → Nat
  | 0, _ => 1
  | 1, _ => 1
  | n + 2, k =>
    match attempt k with
    | Except.ok _ => 1
    | Except.error _ => 1 + tenacityAttempts attempt (n + 1) (k + 1)

/-- The wait before retry number n (n counts the attempt that just failed,
starting at 1) under wait_exponential_jitter(initial=5, max=300) with the
drawn jitter as a parameter: min(5 * 2^(n-1) + jitter, 300), clamped at
zero. -/
def tenacityWait (n : Nat) (jitter : ℚ) : ℚ :=
  max 0 (min (5 * 2 ^ (n - 1) + jitter) 300)

/-- The retried fetch of fetch_rss / fetch_latest_eli as a function of the
sequence of network responses (response for attempt k at index k). -/
def fetchWithRetry {α : Type} (responses : Nat → Option (Nat × α)) :
    Except FetchErr α :=
  tenacityRun (fun k => fetchAttempt (responses k)) 5 1

/-- The number of attempts the retried fetch makes. -/
def fetchRetryCount {α : Type} (responses : Nat → Option (Nat × α)) : Nat :=
  tenacityAttempts (fun k => fetchAttempt (responses k)) 5 1

theorem tenacityRun_ok_after_failures {α : Type}
    (attempt : Nat → Except FetchErr α) :
    ∀ (i start rem : Nat), i + 1 ≤ rem →
      (∀ j, start ≤ j → j < start + i → ∃ e, attempt j = Except.error e) →
      ∀ v, attempt (start + i) = Except.ok v →
        tenacityRun attempt rem start = Except.ok v ∧
          tenacityAttempts attempt rem start = i + 1 := by
  intro i
  induction i with
  | zero =>
    intro start rem _ _ v hv
    simp only [Nat.add_zero] at hv
    match rem with
    | 0 => exact ⟨by simpa [tenacityRun] using hv, by simp [tenacityAttempts]⟩
    | 1 => exact ⟨by simpa [tenacityRun] using hv, by simp [tenacityAttempts]⟩
    | n + 2 =>
      constructor
      · show (match attempt start with
          | Except.ok v => Except.ok v
          | Except.error _ => tenacityRun attempt (n + 1) (start + 1))
            = Except.ok v
        rw [hv]
      · show (match attempt start with
          | Except.ok _ => 1
          | Except.error _ => 1 + tenacityAttempts attempt (n + 1) (start + 1))
            = 0 + 1
        rw [hv]
  | succ i ih =>
    intro start rem hrem hfail v hv
    obtain ⟨e, he⟩ := hfail start (Nat.le_refl _) (by omega)
    match rem with
    | 0 => omega
    | 1 => omega
    | n + 2 =>
      have hrec := ih (start + 1) (n + 1) (by omega)
        (fun j hj1 hj2 => hfail j (by omega) (by omega)) v
        (by rw [show start + 1 + i = start + (i + 1) by omega]; exact hv)
      constructor
      · show (match attempt start with
          | Except.ok v => Except.ok v
          | Except.error _ => tenacityRun attempt (n + 1) (start + 1))
            = Except.ok v
        rw [he]
        exact hrec.1
      · show (match attempt start with
          | Except.ok _ => 1
          | Except.error _ => 1 + tenacityAttempts attempt (n + 1) (start + 1))
            = i + 1 + 1
        rw [he]
        show 1 + tenacityAttempts attempt (n + 1) (start + 1) = i + 1 + 1
        rw [hrec.2]
        omega

/-! ### Claim C7 -/

/-- C7 (counterexample): a fetch that keeps answering HTTP 404 is retried
to exhaustion: five attempts are made and the last 404 is surfaced, so a
4xx is not terminal as the claim states. -/
theorem retry_4xx_counterexample :
    fetchWithRetry (fun _ => some (404, (0 : Nat)))
        = Except.error (FetchErr.httpStatus 404) ∧
      fetchRetryCount (fun _ => some (404, (0 : Nat))) = 5 := by
  exact ⟨rfl, rfl⟩

/-- C7 (amended): the RSS and SPARQL fetchers retry on every failure -
network errors, 5xx, and 4xx alike, since tenacity's default predicate
retries on any exception and raise_for_status raises for every status of at
least 400 - with at most five attempts (waits follow
wait_exponential_jitter with initial 5 and cap 300); a 4xx is not terminal.
If the first k-1 responses fail in any mix of these ways and response k
(with k at most 5) is a success, the fetch returns that success having made
exactly k attempts. -/
theorem retry_all_errors_until_success {α : Type}
    (responses : Nat → Option (Nat × α)) (k : Nat) (h1 : 1 ≤ k) (h5 : k ≤ 5)
    (hfail : ∀ j, 1 ≤ j → j < k →
      responses j = none ∨ ∃ s p, responses j = some (s, p) ∧ 400 ≤ s)
    (v : α) (s : Nat) (hks : responses k = some (s, v)) (hs : s < 400) :
    fetchWithRetry responses = Except.ok v ∧ fetchRetryCount responses = k := by
  have hmain := tenacityRun_ok_after_failures
    (fun j => fetchAttempt (responses j)) (k - 1) 1 5 (by omega)
    (fun j hj1 hj2 => ?_) v ?_
  · rw [fetchWithRetry, fetchRetryCount, hmain.1, hmain.2]
    exact ⟨rfl, by omega⟩
  · rcases hfail j hj1 (by omega) with h | ⟨s', p', h, hs'⟩
    · exact ⟨FetchErr.network, by simp [fetchAttempt, h]⟩
    · exact ⟨FetchErr.httpStatus s', by simp [fetchAttempt, h, hs']⟩
  · show fetchAttempt (responses (1 + (k - 1))) = Except.ok v
    rw [show 1 + (k - 1) = k by omega, hks]
    simp [fetchAttempt, Nat.not_le.mpr hs]

/-- C7 witness: two network failures followed by a 200 succeed on the third
attempt. -/
theorem retry_all_errors_until_success_witness :
    (∀ j, 1 ≤ j → j < 3 →
        (fun j => if j ≤ 2 then none else some (200, (7 : Nat))) j = none ∨
          ∃ s p, (fun j => if j ≤ 2 then none else some (200, (7 : Nat))) j
            = some (s, p) ∧ 400 ≤ s) ∧
      (fun j => if j ≤ 2 then none else some (200, (7 : Nat))) 3
        = some (200, 7) ∧
      fetchWithRetry (fun j => if j ≤ 2 then none else some (200, (7 : Nat)))
        = Except.ok 7 ∧
      fetchRetryCount (fun j => if j ≤ 2 then none else some (200, (7 : Nat)))
        = 3 := by
  refine ⟨?_, by decide, ?_⟩
  · intro j hj1 hj2
    have hj : j ≤ 2 := by omega
    exact Or.inl (by simp [hj])
  · exact retry_all_errors_until_success _ 3 (by decide) (by decide)
      (fun j hj1 hj2 => Or.inl (by simp [show j ≤ 2 by omega]))
      7 200 (by decide) (by decide)

/-! ## Text sanitizers

Embedding of regulation_monitor._sanitize_content and
RegulationMonitorV2._sanitize_text.  NFKC normalization is modelled as the
identity (exact on ASCII); the regex character class backslash-s is modelled
by its ASCII fragment (pyWs); the two line-anchored substitutions of the V2
sanitizer are applied per line (the patterns are line-local on the inputs
considered here). -/

/-- Replace the no-break space by a plain space (the replace call applied
right after NFKC normalization). -/
def mapNbsp (l : List Char) : List Char :=
  l.map (fun c => if c = '\xa0' then ' ' else c)

/-- ASCII letter test ([a-zA-Z]). -/
def isAsciiLetter (c : Char) : Bool :=
  ('a' ≤ c && c ≤ 'z') || ('A' ≤ c && c ≤ 'Z')

/-- ASCII digit test (the regex class backslash-d, ASCII fragment). -/
def isDigitCh (c : Char) : Bool :=
  '0' ≤ c && c ≤ '9'

/-- Roman-numeral letters of the ANNEXE pattern, case-insensitive. -/
def romanChar (c : Char) : Bool :=
  c = 'I' || c = 'V' || c = 'X' || c = 'L' || c = 'C' ||
    c = 'i' || c = 'v' || c = 'x' || c = 'l' || c = 'c'

/-- The EUR-Lex clutter characters removed by the tick substitution: the
grave accent (codepoint 96) and the acute accent (codepoint 180). -/
def isTickChar (c : Char) : Bool :=
  c.toNat = 96 || c.toNat = 180

/-- Case-insensitive match of an upper-case keyword at the front of a
character list, returning the remainder. -/
def stripCIKeyword : List Char → List Char → Option (List Char)
  | [], s => some s
  | _ :: _, [] => none
  | k :: ks, c :: cs => if c.toUpper = k then stripCIKeyword ks cs else none

/-- Case-sensitive match of a keyword at the front of a character list. -/
def stripKeyword : List Char → List Char → Option (List Char)
  | [], s => some s
  | _ :: _, [] => none
  | k :: ks, c :: cs => if c = k then stripKeyword ks cs else none

/-- One attempted match of the pattern boundary-ANNEXE, whitespace, roman
numerals, boundary (case-insensitive), returning the remainder after the
match. -/
def matchAnnexe (s : List Char) : Option (List Char) :=
  match stripCIKeyword ['A', 'N', 'N', 'E', 'X', 'E'] s with
  | none => none
  | some r1 =>
    if r1.takeWhile pyWs = [] then none
    else
      let r2 := r1.dropWhile pyWs
      if r2.takeWhile romanChar = [] then none
      else
        match r2.dropWhile romanChar with
        | [] => some []
        | d :: r3 => if isWordChar d then none else some (d :: r3)

/-- Scanner for the substitution removing duplicated ANNEXE-roman markers
(the word boundary before the keyword is tracked in the flag). -/
def annexeSubAux : Nat → Bool → List Char → List Char
  | 0, _, l => l
  | _ + 1, _, [] => []
  | fuel + 1, prevW, c :: rest =>
    if prevW then c :: annexeSubAux fuel (isWordChar c) rest
    else
      match matchAnnexe (c :: rest) with
      | some r => annexeSubAux fuel true r
      | none => c :: annexeSubAux fuel (isWordChar c) rest

/-- The ISO language-code line test (two or three upper-case letters and
nothing else). -/
def isIsoCode (s : String) : Bool :=
  (s.data.length = 2 || s.data.length = 3) &&
    s.data.all (fun c => 'A' ≤ c && c ≤ 'Z')

/-- Bare numeric marker: optional opening parenthesis, digits, optional
closing parenthesis, end. -/
def bareNum (l : List Char) : Bool :=
  let l1 := match l with
    | '(' :: rest => rest
    | _ => l
  let ds := l1.takeWhile isDigitCh
  let r := l1.dropWhile isDigitCh
  ds ≠ [] && (r = [] || r = [')'])

/-- Bare letter marker: a single letter in parentheses. -/
def bareLetter : List Char → Bool
  | ['(', c, ')'] => isAsciiLetter c
  | _ => false

/-- Bare footnote reference: digits in square brackets. -/
def bareRef (l : List Char) : Bool :=
  match l with
  | '[' :: rest =>
    let ds := rest.takeWhile isDigitCh
    ds ≠ [] && rest.dropWhile isDigitCh = [']']
  | _ => false

/-- The per-line filtering loop of _sanitize_content: normalize, drop
ANNEXE markers and ISO-code lines, remove tick clutter, drop hanging bare
markers (only when no non-empty line follows) and lone punctuation. -/
def keepLines : List String → List String
  | [] => []
  | ln :: rest =>
    let s0 := pyStrip ⟨mapNbsp ln.data⟩
    let s1 := pyStrip ⟨annexeSubAux s0.data.length false s0.data⟩
    if isIsoCode s1 then keepLines rest
    else
      let s2 := pyStrip ⟨s1.data.filter (fun c => !isTickChar c)⟩
      let anyNext := rest.any (fun l2 => pyStrip ⟨mapNbsp l2.data⟩ ≠ "")
      if (bareNum s2.data || bareLetter s2.data || bareRef s2.data) && !anyNext
      then keepLines rest
      else if s2 = ";" || s2 = "." then keepLines rest
      else s2 :: keepLines rest

/-- Collapse runs of spaces and tabs to a single space. -/
def collapseST : Nat → List Char → List Char
  | 0, l => l
  | _ + 1, [] => []
  | fuel + 1, c :: rest =>
    if c = ' ' || c = '\t' then
      ' ' :: collapseST fuel (rest.dropWhile (fun d => d = ' ' || d = '\t'))
    else c :: collapseST fuel rest

/-- Collapse runs of three or more newlines to exactly two. -/
def collapseNL3 : Nat → List Char → List Char
  | 0, l => l
  | _ + 1, [] => []
  | fuel + 1, c :: rest =>
    if c = '\n' then
      let run := 1 + (rest.takeWhile (fun d => d = '\n')).length
      let rest' := rest.dropWhile (fun d => d = '\n')
      (if 3 ≤ run then ['\n', '\n'] else List.replicate run '\n')
        ++ collapseNL3 fuel rest'
    else c :: collapseNL3 fuel rest

/-- Plain split of a character list at every newline (keeping empty
pieces). -/
def splitAllAux (acc : List Char) : List Char → List (List Char)
  | [] => [acc.reverse]
  | c :: rest =>
    if c = '\n' then acc.reverse :: splitAllAux [] rest
    else splitAllAux (c :: acc) rest

/-- Join character lines with newlines. -/
def joinCharNL : List (List Char) → List Char
  | [] => []
  | [x] => x
  | x :: rest => x ++ '\n' :: joinCharNL rest

/-- The ELI footer line pattern: optional whitespace, the literal text
ELI-colon, optional whitespace, at least one non-space character. -/
def isEliLine (l : List Char) : Bool :=
  match stripKeyword ['E', 'L', 'I', ':'] (l.dropWhile pyWs) with
  | none => false
  | some r => (r.dropWhile pyWs) ≠ []

/-- The multiline substitution blanking every ELI footer line. -/
def eliRemove (l : List Char) : List Char :=
  joinCharNL ((splitAllAux [] l).map (fun ln => if isEliLine ln then [] else ln))

/-- The hyphen characters of the soft-wrap pattern: the ASCII hyphen and
the dashes U+2010 through U+2014. -/
def isHyphenCh (c : Char) : Bool :=
  c.toNat = 45 || (8208 ≤ c.toNat && c.toNat ≤ 8212)

/-- First pass of _unwrap_soft_linebreaks: a word character, a hyphen, a
whitespace run containing a newline, and a word character collapse to the
two word characters. -/
def hyphenJoinAux : Nat → List Char → List Char
  | 0, l => l
  | _ + 1, [] => []
  | fuel + 1, c :: rest =>
    if isWordChar c then
      match rest with
      | h :: r2 =>
        if isHyphenCh h then
          let ws := r2.takeWhile pyWs
          let r3 := r2.dropWhile pyWs
          if ws.contains '\n' then
            match r3 with
            | d :: r4 =>
              if isWordChar d then c :: d :: hyphenJoinAux fuel r4
              else c :: hyphenJoinAux fuel rest
            | [] => c :: hyphenJoinAux fuel rest
          else c :: hyphenJoinAux fuel rest
        else c :: hyphenJoinAux fuel rest
      | [] => [c]
    else c :: hyphenJoinAux fuel rest

/-- The enumerator test of the join callback: optional whitespace, then a
parenthesized or bare letter, a roman group, or a dotted number, then at
least one whitespace character (case-insensitive). -/
def enumeratorAfter (l : List Char) : Bool :=
  let r := l.dropWhile pyWs
  let ivx := fun c : Char => c = 'i' || c = 'v' || c = 'x'
      || c = 'I' || c = 'V' || c = 'X'
  let alt1 : Option (List Char) :=
    match r with
    | '(' :: c :: ')' :: rest => if isAsciiLetter c then some rest else none
    | '(' :: _ => none
    | c :: ')' :: rest => if isAsciiLetter c then some rest else none
    | _ => none
  let alt2 : Option (List Char) :=
    match r with
    | '(' :: rest =>
      if rest.takeWhile ivx = [] then none
      else
        match rest.dropWhile ivx with
        | ')' :: r2 => some r2
        | _ => none
    | _ => none
  let alt3 : Option (List Char) :=
    if r.takeWhile isDigitCh = [] then none
    else
      match r.dropWhile isDigitCh with
      | '.' :: r2 => some r2
      | _ => none
  let wsAfter : Option (List Char) → Bool := fun o =>
    match o with
    | some (w :: _) => pyWs w
    | _ => false
  wsAfter alt1 || wsAfter alt2 || wsAfter alt3

/-- The structural-header test of the join callback: one of the keywords
ANNEX, Article, Section, Chapter, Part (case-insensitive) followed by a
word boundary. -/
def structuralAfter (l : List Char) : Bool :=
  let boundary : Option (List Char) → Bool := fun o =>
    match o with
    | some [] => true
    | some (d :: _) => !isWordChar d
    | none => false
  boundary (stripCIKeyword ['A', 'N', 'N', 'E', 'X'] l) ||
    boundary (stripCIKeyword ['A', 'R', 'T', 'I', 'C', 'L', 'E'] l) ||
    boundary (stripCIKeyword ['S', 'E', 'C', 'T', 'I', 'O', 'N'] l) ||
    boundary (stripCIKeyword ['C', 'H', 'A', 'P', 'T', 'E', 'R'] l) ||
    boundary (stripCIKeyword ['P', 'A', 'R', 'T'] l)

/-- Second pass of _unwrap_soft_linebreaks: a character, a single newline
and the following non-empty line are re-joined with a space unless the
following line starts with an enumerator or structural header; the
consumed line is skipped, so alternating lines are joined per pass, as in
CPython's non-overlapping re.sub. -/
def joinAux : Nat → List Char → List Char
  | 0, l => l
  | _ + 1, [] => []
  | fuel + 1, c :: rest =>
    if c = '\n' then c :: joinAux fuel rest
    else
      match rest with
      | '\n' :: r2 =>
        match r2 with
        | d :: _ =>
          if d = '\n' then c :: joinAux fuel rest
          else
            let after := r2.takeWhile (fun e => e ≠ '\n')
            let r3 := r2.dropWhile (fun e => e ≠ '\n')
            if enumeratorAfter after || structuralAfter after then
              c :: '\n' :: (after ++ joinAux fuel r3)
            else
              c :: ' ' :: (after ++ joinAux fuel r3)
        | [] => c :: joinAux fuel rest
      | _ => c :: joinAux fuel rest

/-- regulation_monitor._unwrap_soft_linebreaks (also imported by the V2
monitor). -/
def unwrapSoftLinebreaks (l : List Char) : List Char :=
  let h := hyphenJoinAux l.length l
  joinAux h.length h

/-- regulation_monitor._sanitize_content. -/
def sanitizeContent (text : String) : String :=
  if text = "" then ""
  else
    let lines := keepLines (splitLinesPy text)
    let cleaned := (joinNL lines).data
    let c1 := collapseST cleaned.length cleaned
    let c2 := collapseNL3 c1.length c1
    let c3 := eliRemove c2
    let c4 := collapseNL3 c3.length c3
    pyStrip ⟨unwrapSoftLinebreaks c4⟩

/-- RegulationMonitorV2._sanitize_text: drop trailing footnote markers and
standalone number lines, collapse spaces and blank runs, unwrap soft line
breaks, strip. -/
def dropFootnote (ln : List Char) : List Char :=
  let r := ln.reverse.dropWhile pyWs
  match r with
  | ']' :: r2 =>
    let ds := r2.takeWhile isDigitCh
    if ds = [] then ln
    else
      match r2.dropWhile isDigitCh with
      | '[' :: w :: r4 => if pyWs w then r4.reverse else ln
      | _ => ln
  | _ => ln

/-- The standalone number-line pattern of the V2 sanitizer: optional
whitespace, an optional opening bracket, digits, an optional closing
bracket, optional whitespace. -/
def isBareNumLineV2 (ln : List Char) : Bool :=
  let r := ln.dropWhile pyWs
  let r1 := match r with
    | c :: rest => if c = '(' || c = '[' then rest else r
    | [] => r
  let ds := r1.takeWhile isDigitCh
  ds ≠ [] &&
    (let r2 := r1.dropWhile isDigitCh
     let r3 := match r2 with
       | c :: rest => if c = ')' || c = ']' then rest else r2
       | [] => r2
     r3.dropWhile pyWs = [])

/-- RegulationMonitorV2._sanitize_text. -/
def sanitizeTextV2 (text : String) : String :=
  let lines := splitAllAux [] text.data
  let l1 := lines.map dropFootnote
  let l2 := l1.map (fun ln => if isBareNumLineV2 ln then [] else ln)
  let c := joinCharNL l2
  let c1 := collapseST c.length c
  let c2 := collapseNL3 c1.length c1
  pyStrip ⟨unwrapSoftLinebreaks c2⟩

example : sanitizeContent "(a)\nSome point" = "(a) Some point" := by decide
example : sanitizeContent "(a)\n\n" = "" := by decide
example : sanitizeContent "ANNEXE IV\nEN\nFR\nSome text" = "Some text" := by
  decide
example : sanitizeContent "inter-\noperability" = "interoperability" := by
  decide
example : sanitizeContent "a\nb\nc" = "a b\nc" := by decide
example : sanitizeContent "x  y\t\tz" = "x y z" := by decide
example : sanitizeContent "1.\ntext follows" = "1. text follows" := by decide
example : sanitizeContent "Line one\n1. point" = "Line one\n1. point" := by
  decide
example : sanitizeContent "Some text\nELI: http://example.com/eli/123\nNext"
    = "Some text\n\nNext" := by decide
example : sanitizeTextV2 "Some text\nELI: http://example.com/eli/123\nNext"
    = "Some text ELI: http://example.com/eli/123\nNext" := by decide
example : sanitizeTextV2 "(a)\nSome point" = "(a) Some point" := by decide
example : sanitizeTextV2 "inter-\noperability" = "interoperability" := by
  decide

/-! ### Claim C8 -/

/-- C8 (code_bug): on the input of the repository's own test
test_sanitizers_drop_oj_footer_and_page_counter, both sanitizers keep the
page counter 45/144 and the EN OJ L footer line (the first is even joined
onto the clause line), while the claim, the spec and the test expect the
output to be exactly the clause: neither sanitizer contains any removal
rule for page counters, OJ footer lines, or inline ELI references. -/
theorem sanitize_oj_footer_bug :
    sanitizeContent "Clause...\n45/144\nEN OJ L, 12.7.2024\n"
        = "Clause... 45/144\nEN OJ L, 12.7.2024" ∧
      sanitizeTextV2 "Clause...\n45/144\nEN OJ L, 12.7.2024\n"
        = "Clause... 45/144\nEN OJ L, 12.7.2024" ∧
      isSubstr "45/144"
        (sanitizeContent "Clause...\n45/144\nEN OJ L, 12.7.2024\n") = true ∧
      isSubstr "EN OJ L"
        (sanitizeContent "Clause...\n45/144\nEN OJ L, 12.7.2024\n") = true :=
  ⟨by decide, by decide, by decide, by decide⟩

/-! ## The relational store

Row types for the seven tables of the data model and a state record for
the store.  The row types carry the columns the monitor code reads or
writes plus the identifying attributes of the spec's data model; the
ORM's bookkeeping columns (created_at, updated_at and response_time
defaults) that no claim mentions are omitted, and the models.py snapshot
lacks the content_hash, expression_version, work_date, order_index and
ingested_at columns that regulation_monitor_v2 uses, so those fields follow
the monitor's usage and the spec's section 3.  Timestamps are integers
(datetime.utcnow() becomes an explicit now parameter); primary keys are
natural numbers drawn from a store-wide counter. -/

/-- A date-time instant. -/
abbrev Instant := Int

/-- A Regulation row. -/
structure RegRow where
  id : Nat
  name : String
  celex_id : String
  version : String
  expression_version : Option String
  work_date : Option Instant
  source_url : String
  effective_date : Option Instant
  last_updated : Instant
  status : String
  content_hash : Option String
  deriving Repr, DecidableEq

/-- A Rule row. -/
structure RuleRow where
  id : Nat
  regulation_id : Nat
  section_code : String
  title : Option String
  content : String
  risk_level : String
  version : String
  parent_rule_id : Option Nat
  effective_date : Option Instant
  last_modified : Option Instant
  order_index : Option String
  ingested_at : Instant
  deriving Repr, DecidableEq

/-- A ComplianceAlert row. -/
structure AlertRow where
  document_id : Option Nat
  rule_id : Option Nat
  alert_type : String
  priority : String
  message : String
  deriving Repr, DecidableEq

/-- A DocumentRuleMapping row. -/
structure MappingRow where
  id : Nat
  document_id : Nat
  rule_id : Nat
  confidence_score : ℚ
  mapped_by : String
  mapped_at : Instant
  last_verified : Instant
  deriving Repr, DecidableEq

/-- A Document row (the fields the ingestion engine touches). -/
structure DocRow where
  id : Nat
  filename : Option String
  compliance_status : String
  last_modified : Instant
  deriving Repr, DecidableEq

/-- A Source row (the attributes of the spec's data model). -/
structure SourceRow where
  id : String
  url : String
  stype : String
  freq : String
  active : Bool
  last_fetched : Option Instant
  extra : Option String
  deriving Repr, DecidableEq

/-- A RegulationSourceLog row. -/
structure LogRow where
  source_id : String
  status : String
  fetched_at : Instant
  content_hash : Option String
  bytes_downloaded : Option Nat
  error_message : Option String
  fetch_mode : Option String
  deriving Repr, DecidableEq

/-- The store: table contents in insertion order plus a fresh-id counter. -/
structure DB where
  regs : List RegRow
  rules : List RuleRow
  alerts : List AlertRow
  mappings : List MappingRow
  docs : List DocRow
  logs : List LogRow
  sources : List SourceRow
  next_id : Nat
  deriving Repr, DecidableEq

/-- Replace the first element satisfying the predicate (the effect of
mutating the row returned by a first() query). -/
def updateFirst {α : Type} (p : α → Bool) (f : α → α) : List α → List α
  | [] => []
  | x :: rest => if p x then f x :: rest else x :: updateFirst p f rest

/-! ## The source-operation logger

Embedding of RegulationMonitorV2._log_source_operation. -/

/-- RegulationMonitorV2._log_source_operation: append one log row and, for
a success status, stamp last_fetched on the matching Source row. -/
def logSourceOperation (db : DB) (now : Instant) (source_id status : String)
    (content_hash : Option String) (bytes_downloaded : Option Nat)
    (error_message fetch_mode : Option String) : DB :=
  let log : LogRow :=
    { source_id := source_id, status := status, fetched_at := now,
      content_hash := content_hash, bytes_downloaded := bytes_downloaded,
      error_message := error_message, fetch_mode := fetch_mode }
  let db1 := { db with logs := db.logs ++ [log] }
  if status = "success" then
    let newSources := updateFirst (fun s => s.id = source_id)
      (fun s => { s with last_fetched := some now }) db1.sources
    { db1 with sources := newSources }
  else db1

theorem updateFirst_shape {α : Type} (p : α → Bool) (f : α → α) :
    ∀ (l : List α) (x : α), x ∈ updateFirst p f l →
      x ∈ l ∨ ∃ y ∈ l, p y ∧ x = f y := by
  intro l
  induction l with
  | nil => intro x h; simp [updateFirst] at h
  | cons z zs ih =>
    intro x h
    by_cases hz : p z
    · rw [show updateFirst p f (z :: zs) = f z :: zs from if_pos hz] at h
      rcases List.mem_cons.mp h with rfl | h
      · exact Or.inr ⟨z, by simp, hz, rfl⟩
      · exact Or.inl (List.mem_cons_of_mem _ h)
    · rw [show updateFirst p f (z :: zs) = z :: updateFirst p f zs
          from if_neg hz] at h
      rcases List.mem_cons.mp h with rfl | h
      · exact Or.inl (by simp)
      · rcases ih x h with h' | ⟨y, hy, hpy, rfl⟩
        · exact Or.inl (List.mem_cons_of_mem _ h')
        · exact Or.inr ⟨y, List.mem_cons_of_mem _ hy, hpy, rfl⟩

/-! ### Claim C10 -/

/-- C10: every call of the source-operation logger appends exactly one
RegulationSourceLog row and leaves all other tables unchanged; a Source
row's last_fetched is stamped only for the success status (any other
status leaves the sources untouched), and no Source attribute other than
last_fetched is ever modified. -/
theorem log_source_operation_frame (db : DB) (now : Instant)
    (source_id status : String) (content_hash : Option String)
    (bytes_downloaded : Option Nat) (error_message fetch_mode : Option String) :
    (logSourceOperation db now source_id status content_hash bytes_downloaded
        error_message fetch_mode).logs
      = db.logs ++
        [{ source_id := source_id, status := status, fetched_at := now,
           content_hash := content_hash, bytes_downloaded := bytes_downloaded,
           error_message := error_message, fetch_mode := fetch_mode }] ∧
    (logSourceOperation db now source_id status content_hash bytes_downloaded
        error_message fetch_mode).regs = db.regs ∧
    (logSourceOperation db now source_id status content_hash bytes_downloaded
        error_message fetch_mode).rules = db.rules ∧
    (logSourceOperation db now source_id status content_hash bytes_downloaded
        error_message fetch_mode).alerts = db.alerts ∧
    (logSourceOperation db now source_id status content_hash bytes_downloaded
        error_message fetch_mode).mappings = db.mappings ∧
    (logSourceOperation db now source_id status content_hash bytes_downloaded
        error_message fetch_mode).docs = db.docs ∧
    (status ≠ "success" →
      (logSourceOperation db now source_id status content_hash
          bytes_downloaded error_message fetch_mode).sources = db.sources) ∧
    (∀ s' ∈ (logSourceOperation db now source_id status content_hash
        bytes_downloaded error_message fetch_mode).sources,
      ∃ s ∈ db.sources, s'.id = s.id ∧ s'.url = s.url ∧ s'.stype = s.stype ∧
        s'.freq = s.freq ∧ s'.active = s.active ∧ s'.extra = s.extra ∧
        (s'.last_fetched = s.last_fetched ∨
          (status = "success" ∧ s'.last_fetched = some now))) := by
  by_cases hs : status = "success"
  · rw [show logSourceOperation db now source_id status content_hash
        bytes_downloaded error_message fetch_mode
        = { db with
            logs := db.logs ++
              [{ source_id := source_id, status := status, fetched_at := now,
                 content_hash := content_hash,
                 bytes_downloaded := bytes_downloaded,
                 error_message := error_message, fetch_mode := fetch_mode }],
            sources := updateFirst (fun s => s.id = source_id)
              (fun s => { s with last_fetched := some now }) db.sources }
        by simp [logSourceOperation, hs]]
    refine ⟨rfl, rfl, rfl, rfl, rfl, rfl, fun hc => absurd hs hc, ?_⟩
    intro s' hs'
    rcases updateFirst_shape _ _ db.sources s' hs' with h | ⟨y, hy, _, rfl⟩
    · exact ⟨s', h, rfl, rfl, rfl, rfl, rfl, rfl, Or.inl rfl⟩
    · exact ⟨y, hy, rfl, rfl, rfl, rfl, rfl, rfl, Or.inr ⟨hs, rfl⟩⟩
  · rw [show logSourceOperation db now source_id status content_hash
        bytes_downloaded error_message fetch_mode
        = { db with
            logs := db.logs ++
              [{ source_id := source_id, status := status, fetched_at := now,
                 content_hash := content_hash,
                 bytes_downloaded := bytes_downloaded,
                 error_message := error_message, fetch_mode := fetch_mode }] }
        by simp [logSourceOperation, hs]]
    refine ⟨rfl, rfl, rfl, rfl, rfl, rfl, fun _ => rfl, ?_⟩
    intro s' hs'
    exact ⟨s', hs', rfl, rfl, rfl, rfl, rfl, rfl, Or.inl rfl⟩

/-! ## The ingestion engine

Embedding of RegulationMonitorV2._ingest_regulation_text.  The collaborators
are parameters gathered in the Collab record: the rule parser (parse_rules),
the TF-IDF vectorizer of the diff analyzer, and SHA-256; every theorem below
holds for every choice of these.  work_date arrives pre-parsed as an
optional instant (the source parses an ISO string), and the alert message
texts are reduced to their code-relevant parts (the source interpolates
floating-point scores into them; no claim reads messages). -/

/-- A record emitted by the rule parser. -/
structure RuleRecord where
  section_code : String
  title : Option String
  content : String
  parent_section_code : Option String
  order_index : Option String
  deriving Repr, DecidableEq

/-- The external collaborators of the ingestion engine. -/
structure Collab where
  parse : String → List RuleRecord
  tfidf : String → String → Option ℚ
  sha : String → String

/-- Decimal digits of a natural number (fueled). -/
def natToChars : Nat → Nat → List Char
  | 0, _ => []
  | fuel + 1, n =>
    if n < 10 then [Char.ofNat (48 + n)]
    else natToChars fuel (n / 10) ++ [Char.ofNat (48 + n % 10)]

/-- Parse a digit string (used for the %03d formatting of order
indices). -/
def parseNatAux : List Char → Nat → Nat
  | [], acc => acc
  | c :: rest, acc => parseNatAux rest (acc * 10 + (c.toNat - 48))

/-- regulation_monitor.format_order_index: zero-pad numeric indices to
three digits, lower-case the rest. -/
def formatOrderIndex (idx : String) : String :=
  if idx.data ≠ [] ∧ idx.data.all isDigitCh then
    let n := parseNatAux idx.data 0
    let ds := natToChars (idx.data.length + 1) n
    ⟨if ds.length < 3 then List.replicate (3 - ds.length) '0' ++ ds else ds⟩
  else ⟨idx.data.map Char.toLower⟩

example : formatOrderIndex "7" = "007" := by decide
example : formatOrderIndex "12" = "012" := by decide
example : formatOrderIndex "1234" = "1234" := by decide
example : formatOrderIndex "B" = "b" := by decide

/-- The keyword-upgrade regex of infer_risk_level (boundary-anchored
case-insensitive search; matches exact words only, so "penalty" does not
trigger the "penalt" alternative). -/
def riskKeywordFound (content : String) : Bool :=
  ["shall", "must", "required", "prohibited", "penalt", "liabilit"].any
    (fun kw => countWord kw content ≠ 0)

/-- The risk-level heuristic local to _ingest_regulation_text. -/
def inferRiskLevel (section_code content : String) : String :=
  let code : String := ⟨section_code.data.map Char.toLower⟩
  let base :=
    if ["annexiv", "article9", "article10", "article11", "article15"].any
        (fun h => pyStartsWith code h) then "high"
    else if ["article12", "article13", "article14", "article17"].any
        (fun h => pyStartsWith code h) then "medium"
    else "low"
  if riskKeywordFound content then "high" else base

example : inferRiskLevel "Article9.2" "anything" = "high" := by decide
example : inferRiskLevel "Article13" "plain text" = "medium" := by decide
example : inferRiskLevel "Article2" "the provider shall do" = "high" := by
  decide
example : inferRiskLevel "Article2" "a penalty applies" = "low" := by decide

/-- Association-list insert with in-place overwrite (Python dict
assignment). -/
def alistInsert {β : Type} (k : String) (v : β) :
    List (String × β) → List (String × β)
  | [] => [(k, v)]
  | (k', v') :: rest =>
    if k' = k then (k, v) :: rest else (k', v') :: alistInsert k v rest

/-- Association-list lookup (Python dict get). -/
def alistGet {β : Type} (k : String) (l : List (String × β)) : Option β :=
  (l.find? (fun p => p.1 = k)).map (fun p => p.2)

/-- The code-to-rule dictionary over the previous version's rules, keyed by
canonical section code; later rules overwrite earlier ones as in dict
assignment. -/
def buildCodeToOld (rules : List RuleRow) : List (String × RuleRow) :=
  rules.foldl (fun m r => alistInsert (canonicalize r.section_code) r m) []

/-- Truthiness of an optional string (None and the empty string are
falsy). -/
def truthyOpt : Option String → Bool
  | none => false
  | some s => s ≠ ""

/-- Descending comparison of optional effective dates: a null date sorts
last in a descending order_by. -/
def optGtI : Option Instant → Option Instant → Bool
  | some x, some y => x > y
  | some _, none => true
  | _, _ => false

/-- Strict descending comparison for the previous-version query
(effective_date desc, last_updated desc). -/
def regPrevGt (a b : RegRow) : Bool :=
  optGtI a.effective_date b.effective_date ||
    (a.effective_date = b.effective_date && a.last_updated > b.last_updated)

/-- The alert message for a rule-updated alert (score interpolation of the
source omitted). -/
def ruleUpdatedMsg (sc : String) (ch : LegalChange) : String :=
  "Rule " ++ sc ++ " updated: " ++ ch.changeType

/-- The alert message for a document-outdated alert. -/
def docOutdatedMsg (fn : Option String) (sc : String) : String :=
  "Document " ++ fn.getD "" ++ " outdated due to changes in " ++ sc

/-- One iteration of the per-record loop of _ingest_regulation_text:
canonicalize, skip already-seen codes, diff against the matching old rule,
build and insert the Rule row, link the parent from the in-batch map, and
raise a rule_updated alert for high-severity changes. -/
def ingestRuleStep (C : Collab) (now : Instant) (workDate : Option Instant)
    (version : String) (regId : Nat) (codeToOld : List (String × RuleRow))
    (st : DB × List (String × RuleRow)) (rd : RuleRecord) :
    DB × List (String × RuleRow) :=
  let db := st.1
  let m := st.2
  let sc := canonicalize rd.section_code
  let pc : Option String :=
    match rd.parent_section_code with
    | some p => if p ≠ "" then some (canonicalize p) else none
    | none => none
  if (alistGet sc m).isSome then st
  else
    let oldRule := alistGet sc codeToOld
    let newNorm := sanitizeContent rd.content
    let t := pyStrip (rd.title.getD "")
    let change : Option LegalChange := oldRule.map (fun o =>
      analyzeChanges C.tfidf (sanitizeContent o.content) newNorm sc)
    let rule0 : RuleRow :=
      { id := db.next_id, regulation_id := regId, section_code := sc,
        title := if t ≠ "" then some t else none,
        content := newNorm,
        risk_level := inferRiskLevel sc newNorm,
        version := version,
        effective_date := workDate,
        last_modified := some (workDate.getD now),
        parent_rule_id := none,
        order_index := rd.order_index.map formatOrderIndex,
        ingested_at := now }
    let rule1 : RuleRow :=
      match change, oldRule with
      | some ch, some o =>
        if ch.changeType = "no_change" then
          match workDate with
          | some w =>
            if (match o.last_modified with
                | none => true
                | some lm => lm > w) then { rule0 with last_modified := some w }
            else { rule0 with last_modified := o.last_modified }
          | none => { rule0 with last_modified := o.last_modified }
        else rule0
      | _, _ => rule0
    let m1 := alistInsert sc rule1 m
    let rule2 : RuleRow :=
      match pc with
      | some p =>
        match alistGet p m1 with
        | some parent => { rule1 with parent_rule_id := some parent.id }
        | none => rule1
      | none => rule1
    let m2 := alistInsert sc rule2 m
    let newAlerts : List AlertRow :=
      match change with
      | some ch =>
        if ch.severity = "high" ∨ ch.severity = "critical" ∨
            ch.severity = "major" then
          [{ document_id := none, rule_id := some rule2.id,
             alert_type := "rule_updated", priority := "urgent",
             message := ruleUpdatedMsg sc ch }]
        else []
      | none => []
    ({ db with
       rules := db.rules ++ [rule2],
       alerts := db.alerts ++ newAlerts,
       next_id := db.next_id + 1 }, m2)

/-- One iteration of the mapping-transfer loop: re-issue the mapping
against the new rule with the same canonical code and, when that code
changed, outdate the mapped document and raise a document_outdated
alert. -/
def transferOne (now : Instant) (codeToRule : List (String × RuleRow))
    (changedCodes : List String) (dbAcc : DB) (mp : MappingRow) : DB :=
  match dbAcc.rules.find? (fun r => r.id = mp.rule_id) with
  | none => dbAcc
  | some oldObj =>
    match alistGet (canonicalize oldObj.section_code) codeToRule with
    | none => dbAcc
    | some newRule =>
      let db1 := { dbAcc with
        mappings := dbAcc.mappings ++
          [{ id := dbAcc.next_id, document_id := mp.document_id,
             rule_id := newRule.id, confidence_score := mp.confidence_score,
             mapped_by := "auto", mapped_at := now, last_verified := now }],
        next_id := dbAcc.next_id + 1 }
      if changedCodes.contains (canonicalize oldObj.section_code) then
        match db1.docs.find? (fun d => d.id = mp.document_id) with
        | none => db1
        | some doc =>
          let newDocs := updateFirst (fun d => d.id = mp.document_id)
            (fun d => { d with
              compliance_status := "outdated",
              last_modified := now }) db1.docs
          let newAlert : AlertRow :=
            { document_id := some doc.id, rule_id := some newRule.id,
              alert_type := "document_outdated", priority := "high",
              message := docOutdatedMsg doc.filename oldObj.section_code }
          { db1 with
            docs := newDocs,
            alerts := db1.alerts ++ [newAlert] }
      else db1

/-- The mapping-transfer phase of _ingest_regulation_text. -/
def transferMappings (C : Collab) (now : Instant) (db : DB)
    (prev : Option RegRow) (codeToOld : List (String × RuleRow))
    (codeToRule : List (String × RuleRow)) : DB :=
  match prev with
  | none => db
  | some _ =>
    if codeToOld = [] then db
    else
      let changedCodes :=
        (codeToOld.filter (fun p =>
          match alistGet p.1 codeToRule with
          | some nr =>
            (analyzeChanges C.tfidf (sanitizeContent p.2.content)
              (sanitizeContent nr.content) p.1).changeType ≠ "no_change"
          | none => false)).map (fun p => p.1)
      let oldIds := codeToOld.map (fun p => p.2.id)
      let ms := db.mappings.filter (fun mp => oldIds.contains mp.rule_id)
      ms.foldl (transferOne now codeToRule changedCodes) db

/-- The parent code of a dotted canonical code (rsplit at the last
dot). -/
def rsplitLastDot (s : String) : String :=
  ⟨((s.data.reverse.dropWhile (fun c => c ≠ '.')).drop 1).reverse⟩

example : rsplitLastDot "Article9.2.a" = "Article9.2" := by decide
example : rsplitLastDot "AnnexIV.1" = "AnnexIV" := by decide

/-- One iteration of the orphan-linking pass: re-canonicalize the stored
code if needed and link the parent by the code prefix, consulting and
extending the in-batch map. -/
def orphanStep (regId : Nat) (st : DB × List (String × RuleRow))
    (ruleId : Nat) : DB × List (String × RuleRow) :=
  let db := st.1
  let m := st.2
  match db.rules.find? (fun r => r.id = ruleId) with
  | none => st
  | some r =>
    let canon := canonicalize r.section_code
    let rules1 :=
      if r.section_code ≠ canon then
        updateFirst (fun x => x.id = ruleId)
          (fun x => { x with section_code := canon }) db.rules
      else db.rules
    if canon.data.contains '.' then
      let pCode := rsplitLastDot canon
      let pm : Option RuleRow × List (String × RuleRow) :=
        match alistGet pCode m with
        | some p => (some p, m)
        | none =>
          match rules1.find?
              (fun x => x.regulation_id = regId ∧ x.section_code = pCode) with
          | some p => (some p, alistInsert pCode p m)
          | none => (none, m)
      let rules2 :=
        match pm.1 with
        | some p => updateFirst (fun x => x.id = ruleId)
            (fun x => { x with parent_rule_id := some p.id }) rules1
        | none => rules1
      ({ db with rules := rules2 }, pm.2)
    else ({ db with rules := rules1 }, m)

/-- The orphan-linking pass of _ingest_regulation_text: iterate over the
snapshot of the new regulation's parentless rules. -/
def orphanPass (regId : Nat) (db : DB) (m : List (String × RuleRow)) :
    DB × List (String × RuleRow) :=
  let orphanIds := (db.rules.filter
    (fun r => r.regulation_id = regId ∧ r.parent_rule_id = none)).map
      (fun r => r.id)
  orphanIds.foldl (orphanStep regId) (db, m)

/-- RegulationMonitorV2._ingest_regulation_text. -/
def ingestRegulationText (C : Collab) (now : Instant) (db : DB)
    (name version text url celex_id : String)
    (expression_version : Option String) (workDate : Option Instant) :
    DB × RegRow :=
  let ev := match expression_version with
    | some e => if e ≠ "" then e else version
    | none => version
  let h := C.sha (sanitizeContent text)
  match db.regs.find? (fun r => r.celex_id = celex_id ∧ r.version = version) with
  | some existing => (db, existing)
  | none =>
    match (sortStable (fun a b => optGtI a.effective_date b.effective_date)
        (db.regs.filter (fun r =>
          r.celex_id = celex_id ∧ r.content_hash = some h))).head? with
    | some shr =>
      let u1 := shr.version ≠ version
      let r1 := if shr.version ≠ version then { shr with version := version }
        else shr
      let u2 := ev ≠ "" ∧ ¬ truthyOpt shr.expression_version
      let r2 := if ev ≠ "" ∧ ¬ truthyOpt shr.expression_version then
        { r1 with expression_version := some ev } else r1
      let u3 := workDate.isSome ∧ shr.work_date = none
      let r3 :=
        match workDate with
        | some w =>
          if shr.work_date = none then
            { r2 with work_date := some w, effective_date := some w }
          else r2
        | none => r2
      if u1 ∨ u2 ∨ u3 then
        let newRegs := updateFirst (fun r => r.id = shr.id)
          (fun _ => r3) db.regs
        let db1 := { db with regs := newRegs }
        let newRules := db1.rules.map (fun r =>
          if r.regulation_id = shr.id then
            let ra := if r.version ≠ version then { r with version := version }
              else r
            match workDate with
            | some w =>
              if ra.effective_date = none then
                { ra with effective_date := some w }
              else ra
            | none => ra
          else r)
        let db2 := { db1 with rules := newRules }
        (db2, r3)
      else (db, shr)
    | none =>
      let prev := (sortStable regPrevGt
        (db.regs.filter (fun r => r.celex_id = celex_id))).head?
      let reg : RegRow :=
        { id := db.next_id, name := name, celex_id := celex_id,
          version := version, expression_version := some ev,
          work_date := workDate, source_url := url,
          effective_date := some (workDate.getD now), last_updated := now,
          status := "active", content_hash := some h }
      let db0 := { db with
        regs := db.regs ++ [reg],
        next_id := db.next_id + 1 }
      let rds := (C.parse text).map (fun rd =>
        { rd with content := sanitizeContent rd.content })
      let codeToOld := match prev with
        | some p => buildCodeToOld
            (db0.rules.filter (fun r => r.regulation_id = p.id))
        | none => []
      let st1 := rds.foldl
        (ingestRuleStep C now workDate version reg.id codeToOld) (db0, [])
      let db2 := transferMappings C now st1.1 prev codeToOld st1.2
      let st3 := orphanPass reg.id db2 st1.2
      (st3.1, reg)

/-! Frame lemmas: which tables each ingestion phase can touch. -/

theorem ingestRuleStep_frame (C : Collab) (now : Instant) (wd : Option Instant)
    (v : String) (regId : Nat) (cto : List (String × RuleRow))
    (st : DB × List (String × RuleRow)) (rd : RuleRecord) :
    (ingestRuleStep C now wd v regId cto st rd).1.regs = st.1.regs ∧
    (ingestRuleStep C now wd v regId cto st rd).1.mappings = st.1.mappings ∧
    (ingestRuleStep C now wd v regId cto st rd).1.docs = st.1.docs ∧
    (ingestRuleStep C now wd v regId cto st rd).1.logs = st.1.logs ∧
    (ingestRuleStep C now wd v regId cto st rd).1.sources = st.1.sources := by
  rw [ingestRuleStep]
  split
  · exact ⟨rfl, rfl, rfl, rfl, rfl⟩
  · exact ⟨rfl, rfl, rfl, rfl, rfl⟩

theorem foldl_ingestRuleStep_frame (C : Collab) (now : Instant)
    (wd : Option Instant) (v : String) (regId : Nat)
    (cto : List (String × RuleRow)) :
    ∀ (rds : List RuleRecord) (st : DB × List (String × RuleRow)),
    (rds.foldl (ingestRuleStep C now wd v regId cto) st).1.regs = st.1.regs ∧
    (rds.foldl (ingestRuleStep C now wd v regId cto) st).1.mappings
      = st.1.mappings ∧
    (rds.foldl (ingestRuleStep C now wd v regId cto) st).1.docs = st.1.docs ∧
    (rds.foldl (ingestRuleStep C now wd v regId cto) st).1.logs = st.1.logs ∧
    (rds.foldl (ingestRuleStep C now wd v regId cto) st).1.sources
      = st.1.sources := by
  intro rds
  induction rds with
  | nil => intro st; exact ⟨rfl, rfl, rfl, rfl, rfl⟩
  | cons rd rest ih =>
    intro st
    have h1 := ingestRuleStep_frame C now wd v regId cto st rd
    have h2 := ih (ingestRuleStep C now wd v regId cto st rd)
    rw [List.foldl_cons]
    exact ⟨h2.1.trans h1.1, h2.2.1.trans h1.2.1, h2.2.2.1.trans h1.2.2.1,
      h2.2.2.2.1.trans h1.2.2.2.1, h2.2.2.2.2.trans h1.2.2.2.2⟩

theorem transferOne_frame (now : Instant) (ctr : List (String × RuleRow))
    (cc : List String) (dbAcc : DB) (mp : MappingRow) :
    (transferOne now ctr cc dbAcc mp).regs = dbAcc.regs ∧
    (transferOne now ctr cc dbAcc mp).rules = dbAcc.rules ∧
    (transferOne now ctr cc dbAcc mp).logs = dbAcc.logs ∧
    (transferOne now ctr cc dbAcc mp).sources = dbAcc.sources := by
  rw [transferOne]
  split
  · exact ⟨rfl, rfl, rfl, rfl⟩
  · split
    · exact ⟨rfl, rfl, rfl, rfl⟩
    · split
      · dsimp only
        split
        · exact ⟨rfl, rfl, rfl, rfl⟩
        · exact ⟨rfl, rfl, rfl, rfl⟩
      · exact ⟨rfl, rfl, rfl, rfl⟩

theorem foldl_transferOne_frame (now : Instant) (ctr : List (String × RuleRow))
    (cc : List String) :
    ∀ (ms : List MappingRow) (dbAcc : DB),
    (ms.foldl (transferOne now ctr cc) dbAcc).regs = dbAcc.regs ∧
    (ms.foldl (transferOne now ctr cc) dbAcc).rules = dbAcc.rules ∧
    (ms.foldl (transferOne now ctr cc) dbAcc).logs = dbAcc.logs ∧
    (ms.foldl (transferOne now ctr cc) dbAcc).sources = dbAcc.sources := by
  intro ms
  induction ms with
  | nil => intro dbAcc; exact ⟨rfl, rfl, rfl, rfl⟩
  | cons mp rest ih =>
    intro dbAcc
    have h1 := transferOne_frame now ctr cc dbAcc mp
    have h2 := ih (transferOne now ctr cc dbAcc mp)
    rw [List.foldl_cons]
    exact ⟨h2.1.trans h1.1, h2.2.1.trans h1.2.1, h2.2.2.1.trans h1.2.2.1,
      h2.2.2.2.trans h1.2.2.2⟩

theorem transferMappings_frame (C : Collab) (now : Instant) (db : DB)
    (prev : Option RegRow) (cto ctr : List (String × RuleRow)) :
    (transferMappings C now db prev cto ctr).regs = db.regs ∧
    (transferMappings C now db prev cto ctr).rules = db.rules ∧
    (transferMappings C now db prev cto ctr).logs = db.logs ∧
    (transferMappings C now db prev cto ctr).sources = db.sources := by
  rw [transferMappings.eq_def]
  split
  · exact ⟨rfl, rfl, rfl, rfl⟩
  · split
    · exact ⟨rfl, rfl, rfl, rfl⟩
    · exact foldl_transferOne_frame now ctr _ _ db

theorem orphanStep_frame (regId : Nat) (st : DB × List (String × RuleRow))
    (rid : Nat) :
    (orphanStep regId st rid).1.regs = st.1.regs ∧
    (orphanStep regId st rid).1.alerts = st.1.alerts ∧
    (orphanStep regId st rid).1.mappings = st.1.mappings ∧
    (orphanStep regId st rid).1.docs = st.1.docs ∧
    (orphanStep regId st rid).1.logs = st.1.logs ∧
    (orphanStep regId st rid).1.sources = st.1.sources := by
  rw [orphanStep]
  split
  · exact ⟨rfl, rfl, rfl, rfl, rfl, rfl⟩
  · dsimp only
    split
    · exact ⟨rfl, rfl, rfl, rfl, rfl, rfl⟩
    · exact ⟨rfl, rfl, rfl, rfl, rfl, rfl⟩

theorem foldl_orphanStep_frame (regId : Nat) :
    ∀ (ids : List Nat) (st : DB × List (String × RuleRow)),
    (ids.foldl (orphanStep regId) st).1.regs = st.1.regs ∧
    (ids.foldl (orphanStep regId) st).1.alerts = st.1.alerts ∧
    (ids.foldl (orphanStep regId) st).1.mappings = st.1.mappings ∧
    (ids.foldl (orphanStep regId) st).1.docs = st.1.docs ∧
    (ids.foldl (orphanStep regId) st).1.logs = st.1.logs ∧
    (ids.foldl (orphanStep regId) st).1.sources = st.1.sources := by
  intro ids
  induction ids with
  | nil => intro st; exact ⟨rfl, rfl, rfl, rfl, rfl, rfl⟩
  | cons rid rest ih =>
    intro st
    have h1 := orphanStep_frame regId st rid
    have h2 := ih (orphanStep regId st rid)
    rw [List.foldl_cons]
    exact ⟨h2.1.trans h1.1, h2.2.1.trans h1.2.1, h2.2.2.1.trans h1.2.2.1,
      h2.2.2.2.1.trans h1.2.2.2.1, h2.2.2.2.2.1.trans h1.2.2.2.2.1,
      h2.2.2.2.2.2.trans h1.2.2.2.2.2⟩

theorem orphanPass_frame (regId : Nat) (db : DB)
    (m : List (String × RuleRow)) :
    (orphanPass regId db m).1.regs = db.regs ∧
    (orphanPass regId db m).1.alerts = db.alerts ∧
    (orphanPass regId db m).1.mappings = db.mappings ∧
    (orphanPass regId db m).1.docs = db.docs ∧
    (orphanPass regId db m).1.logs = db.logs ∧
    (orphanPass regId db m).1.sources = db.sources := by
  rw [orphanPass]
  exact foldl_orphanStep_frame regId _ (db, m)

/-! General list helpers for the ingest proofs. -/

theorem mem_of_head? {α : Type} {l : List α} {a : α} (h : l.head? = some a) :
    a ∈ l := by
  cases l with
  | nil => simp at h
  | cons b t =>
    have hb : b = a := by simpa using h
    rw [← hb]
    exact List.mem_cons_self _ _

theorem find?_skip {α : Type} (p : α → Bool) :
    ∀ l1 : List α, (∀ x ∈ l1, p x = false) → ∀ l2 : List α,
      (l1 ++ l2).find? p = l2.find? p := by
  intro l1
  induction l1 with
  | nil => intro _ l2; rfl
  | cons a t ih =>
    intro h l2
    have ha : ¬ p a = true := by simp [h a (List.mem_cons_self _ _)]
    rw [List.cons_append, List.find?_cons_of_neg _ ha]
    exact ih (fun x hx => h x (List.mem_cons_of_mem _ hx)) l2

theorem filter_none {α : Type} (p : α → Bool) :
    ∀ l : List α, (∀ x ∈ l, p x = false) → l.filter p = [] := by
  intro l
  induction l with
  | nil => intro _; rfl
  | cons a t ih =>
    intro h
    have ha : ¬ p a = true := by simp [h a (List.mem_cons_self _ _)]
    rw [List.filter_cons_of_neg ha]
    exact ih (fun x hx => h x (List.mem_cons_of_mem _ hx))

theorem find?_map' {α β : Type} (f : α → β) (p : β → Bool) :
    ∀ l : List α, (l.map f).find? p = (l.find? (fun a => p (f a))).map f := by
  intro l
  induction l with
  | nil => rfl
  | cons a t ih =>
    by_cases h : p (f a) = true
    · have h1 : (List.map f (a :: t)).find? p = some (f a) := by
        rw [List.map_cons]
        exact List.find?_cons_of_pos _ h
      have h2 : (a :: t).find? (fun a => p (f a)) = some a :=
        List.find?_cons_of_pos _ h
      rw [h1, h2]
      rfl
    · have h1 : (List.map f (a :: t)).find? p = (List.map f t).find? p := by
        rw [List.map_cons]
        exact List.find?_cons_of_neg _ h
      have h2 : (a :: t).find? (fun a => p (f a)) = t.find? (fun a => p (f a)) :=
        List.find?_cons_of_neg _ h
      rw [h1, h2, ih]

theorem updateFirst_append_none {α : Type} (p : α → Bool) (f : α → α) :
    ∀ l1 : List α, (∀ x ∈ l1, p x = false) → ∀ l2 : List α,
      updateFirst p f (l1 ++ l2) = l1 ++ updateFirst p f l2 := by
  intro l1
  induction l1 with
  | nil => intro _ l2; rfl
  | cons a t ih =>
    intro h l2
    have ha : ¬ p a = true := by simp [h a (List.mem_cons_self _ _)]
    rw [List.cons_append]
    simp only [updateFirst]
    rw [if_neg ha, ih (fun x hx => h x (List.mem_cons_of_mem _ hx)) l2]
    rfl

theorem updateFirst_map_key {α β : Type} (g : α → β) (p : α → Bool) (f : α → α)
    (hf : ∀ x, g (f x) = g x) :
    ∀ l : List α, (updateFirst p f l).map g = l.map g := by
  intro l
  induction l with
  | nil => rfl
  | cons a t ih =>
    simp only [updateFirst]
    by_cases h : p a = true
    · rw [if_pos h, List.map_cons, List.map_cons, hf]
    · rw [if_neg h, List.map_cons, List.map_cons, ih]

theorem updateFirst_decomp {α : Type} (p : α → Bool) (f : α → α) :
    ∀ l : List α, (∃ x ∈ l, p x = true) →
      ∃ l1 y l2, l = l1 ++ y :: l2 ∧ (∀ z ∈ l1, p z = false) ∧ p y = true ∧
        updateFirst p f l = l1 ++ f y :: l2 := by
  intro l
  induction l with
  | nil => intro h; simp at h
  | cons a t ih =>
    intro h
    by_cases ha : p a = true
    · refine ⟨[], a, t, rfl, by simp, ha, ?_⟩
      simp only [updateFirst]
      rw [if_pos ha]
      rfl
    · obtain ⟨x, hx, hpx⟩ := h
      rcases List.mem_cons.mp hx with rfl | hx'
      · exact absurd hpx ha
      · obtain ⟨l1, y, l2, hdec, hl1, hpy, hupd⟩ := ih ⟨x, hx', hpx⟩
        refine ⟨a :: l1, y, l2, by rw [hdec]; rfl, ?_, hpy, ?_⟩
        · intro z hz
          rcases List.mem_cons.mp hz with rfl | hz'
          · simpa using ha
          · exact hl1 z hz'
        · simp only [updateFirst]
          rw [if_neg ha, hupd]
          rfl

/-! The first-occurrence retention of section codes.  dedupFirst is the
specification-side description of what the seen-set of the rule loop
keeps: the first occurrence of every string, later duplicates dropped. -/

/-- Keep the first occurrence of every string not yet seen. -/
def dedupFirstAux (seen : List String) : List String → List String
  | [] => []
  | c :: rest =>
    if c ∈ seen then dedupFirstAux seen rest
    else c :: dedupFirstAux (c :: seen) rest

/-- First-occurrence deduplication of a list of strings. -/
def dedupFirst (l : List String) : List String :=
  dedupFirstAux [] l

theorem dedupFirstAux_sub : ∀ (l seen : List String) (c : String),
    c ∈ dedupFirstAux seen l → c ∈ l := by
  intro l
  induction l with
  | nil => intro seen c h; simp [dedupFirstAux] at h
  | cons d rest ih =>
    intro seen c h
    simp only [dedupFirstAux] at h
    by_cases hd : d ∈ seen
    · rw [if_pos hd] at h
      exact List.mem_cons_of_mem _ (ih seen c h)
    · rw [if_neg hd] at h
      rcases List.mem_cons.mp h with rfl | h'
      · exact List.mem_cons_self _ _
      · exact List.mem_cons_of_mem _ (ih _ c h')

theorem dedupFirstAux_not_seen : ∀ (l seen : List String) (c : String),
    c ∈ dedupFirstAux seen l → c ∉ seen := by
  intro l
  induction l with
  | nil => intro seen c h; simp [dedupFirstAux] at h
  | cons d rest ih =>
    intro seen c h
    simp only [dedupFirstAux] at h
    by_cases hd : d ∈ seen
    · rw [if_pos hd] at h
      exact ih seen c h
    · rw [if_neg hd] at h
      rcases List.mem_cons.mp h with rfl | h'
      · exact hd
      · intro hcs
        exact ih _ c h' (List.mem_cons_of_mem _ hcs)

theorem dedupFirstAux_nodup : ∀ (l seen : List String),
    (dedupFirstAux seen l).Nodup := by
  intro l
  induction l with
  | nil => intro seen; simp [dedupFirstAux]
  | cons d rest ih =>
    intro seen
    simp only [dedupFirstAux]
    by_cases hd : d ∈ seen
    · rw [if_pos hd]
      exact ih seen
    · rw [if_neg hd]
      refine List.nodup_cons.mpr ⟨?_, ih _⟩
      intro hmem
      exact dedupFirstAux_not_seen rest (d :: seen) d hmem
        (List.mem_cons_self _ _)

theorem dedupFirstAux_congr : ∀ (l seen1 seen2 : List String),
    (∀ c, c ∈ seen1 ↔ c ∈ seen2) →
    dedupFirstAux seen1 l = dedupFirstAux seen2 l := by
  intro l
  induction l with
  | nil => intro seen1 seen2 _; rfl
  | cons d rest ih =>
    intro seen1 seen2 h
    simp only [dedupFirstAux]
    by_cases hd : d ∈ seen1
    · rw [if_pos hd, if_pos ((h d).mp hd)]
      exact ih _ _ h
    · rw [if_neg hd, if_neg (fun hx => hd ((h d).mpr hx))]
      rw [ih (d :: seen1) (d :: seen2)
        (by intro c; simp only [List.mem_cons]; rw [h c])]

/-! Key lemmas about the association-list model of Python dicts. -/

theorem alistGet_isSome_iff {β : Type} (sc : String) :
    ∀ m : List (String × β), (alistGet sc m).isSome = true ↔
      sc ∈ m.map Prod.fst := by
  intro m
  induction m with
  | nil => simp [alistGet]
  | cons p rest ih =>
    by_cases h : p.1 = sc
    · have hg : alistGet sc (p :: rest) = some p.2 := by
        simp only [alistGet]
        rw [List.find?_cons_of_pos _ (by simpa using h)]
        rfl
      rw [hg]
      simp [List.mem_cons, h.symm]
    · have hg : alistGet sc (p :: rest) = alistGet sc rest := by
        simp only [alistGet]
        rw [List.find?_cons_of_neg _ (by simpa using h)]
      rw [hg, ih]
      simp only [List.map_cons, List.mem_cons]
      constructor
      · exact Or.inr
      · rintro (h' | h')
        · exact absurd h'.symm h
        · exact h'

theorem alistInsert_keys_mem {β : Type} (k : String) (v : β) (c : String) :
    ∀ m : List (String × β),
      c ∈ (alistInsert k v m).map Prod.fst ↔ c = k ∨ c ∈ m.map Prod.fst := by
  intro m
  induction m with
  | nil => simp [alistInsert]
  | cons p rest ih =>
    simp only [alistInsert]
    by_cases h : p.1 = k
    · rw [if_pos h]
      simp only [List.map_cons, List.mem_cons, h]
      tauto
    · rw [if_neg h]
      simp only [List.map_cons, List.mem_cons, ih]
      tauto

/-! The observable key of a Rule row for the dedup analysis: which
regulation it belongs to, its section code and its content.  The
orphan-linking pass can only change the other fields (parent_rule_id,
and section_code only when it is not canonical). -/

/-- The (regulation_id, section_code, content) projection of a Rule row. -/
def ruleKey (r : RuleRow) : Nat × String × String :=
  (r.regulation_id, r.section_code, r.content)

theorem canon_of_key_eq {l1 l2 : List RuleRow}
    (h : l1.map ruleKey = l2.map ruleKey)
    (hc : ∀ r ∈ l2, canonicalize r.section_code = r.section_code) :
    ∀ r ∈ l1, canonicalize r.section_code = r.section_code := by
  intro r hr
  have hm : ruleKey r ∈ l2.map ruleKey := by
    rw [← h]
    exact List.mem_map_of_mem _ hr
  obtain ⟨r2, hr2, heq⟩ := List.mem_map.mp hm
  have hcode : r2.section_code = r.section_code :=
    congrArg (fun t => t.2.1) heq
  rw [← hcode]
  exact hc r2 hr2

theorem ruleKey_filter_map_code (rid : Nat) : ∀ (l1 l2 : List RuleRow),
    l1.map ruleKey = l2.map ruleKey →
    (l1.filter (fun r => r.regulation_id = rid)).map (fun r => r.section_code)
      = (l2.filter (fun r => r.regulation_id = rid)).map
          (fun r => r.section_code) := by
  intro l1
  induction l1 with
  | nil =>
    intro l2 h
    have h2 : l2 = [] := List.map_eq_nil_iff.mp h.symm
    rw [h2]
  | cons a t ih =>
    intro l2 h
    cases l2 with
    | nil => simp at h
    | cons b t2 =>
      simp only [List.map_cons, List.cons.injEq] at h
      obtain ⟨hab, ht⟩ := h
      have hrid : a.regulation_id = b.regulation_id := congrArg Prod.fst hab
      have hcode : a.section_code = b.section_code :=
        congrArg (fun t => t.2.1) hab
      by_cases hp : a.regulation_id = rid
      · rw [List.filter_cons_of_pos (by simpa using hp),
          List.filter_cons_of_pos (by simp [← hrid, hp]),
          List.map_cons, List.map_cons, hcode, ih t2 ht]
      · rw [List.filter_cons_of_neg (by simpa using hp),
          List.filter_cons_of_neg (by simp [← hrid, hp]),
          ih t2 ht]

theorem ruleKey_filter_mem (rid : Nat) (l1 l2 : List RuleRow)
    (h : l1.map ruleKey = l2.map ruleKey) :
    ∀ r' ∈ l1.filter (fun r => r.regulation_id = rid),
      ∃ r'' ∈ l2.filter (fun r => r.regulation_id = rid),
        r''.section_code = r'.section_code ∧ r''.content = r'.content := by
  intro r' hr'
  obtain ⟨hm, hp⟩ := List.mem_filter.mp hr'
  have hmk : ruleKey r' ∈ l2.map ruleKey := by
    rw [← h]
    exact List.mem_map_of_mem _ hm
  obtain ⟨r'', hr''m, heq⟩ := List.mem_map.mp hmk
  have h1 : r''.regulation_id = r'.regulation_id := congrArg Prod.fst heq
  have h2 : r''.section_code = r'.section_code :=
    congrArg (fun t => t.2.1) heq
  have h3 : r''.content = r'.content := congrArg (fun t => t.2.2) heq
  refine ⟨r'', List.mem_filter.mpr ⟨hr''m, ?_⟩, h2, h3⟩
  exact decide_eq_true (h1.trans (of_decide_eq_true hp))

/-! Characterization of one iteration of the per-record rule loop. -/

theorem ingestRuleStep_seen (C : Collab) (now : Instant) (wd : Option Instant)
    (v : String) (regId : Nat) (cto : List (String × RuleRow))
    (st : DB × List (String × RuleRow)) (rd : RuleRecord)
    (h : (alistGet (canonicalize rd.section_code) st.2).isSome = true) :
    ingestRuleStep C now wd v regId cto st rd = st := by
  rw [ingestRuleStep]
  dsimp only
  rw [if_pos h]

theorem ingestRuleStep_not_seen (C : Collab) (now : Instant)
    (wd : Option Instant) (v : String) (regId : Nat)
    (cto : List (String × RuleRow)) (st : DB × List (String × RuleRow))
    (rd : RuleRecord)
    (h : (alistGet (canonicalize rd.section_code) st.2).isSome = false) :
    ∃ ru : RuleRow,
      (ingestRuleStep C now wd v regId cto st rd).1.rules
        = st.1.rules ++ [ru] ∧
      (ingestRuleStep C now wd v regId cto st rd).2
        = alistInsert (canonicalize rd.section_code) ru st.2 ∧
      ru.section_code = canonicalize rd.section_code ∧
      ru.regulation_id = regId ∧
      ru.content = sanitizeContent rd.content := by
  rw [ingestRuleStep]
  dsimp only
  rw [if_neg (by simp [h])]
  refine ⟨_, rfl, rfl, ?_, ?_, ?_⟩ <;>
    · repeat' first | rfl | split

/-! The fold characterization of the rule loop: the Rules it creates are
exactly the first-occurrence canonical section codes of the records, in
order, and each created Rule carries the content of the first record
with its code. -/

theorem fold_rules_spec (C : Collab) (now : Instant) (wd : Option Instant)
    (v : String) (regId : Nat) (cto : List (String × RuleRow)) :
    ∀ (rds : List RuleRecord) (st : DB × List (String × RuleRow)),
    ∃ new : List RuleRow,
      (rds.foldl (ingestRuleStep C now wd v regId cto) st).1.rules
        = st.1.rules ++ new ∧
      new.map (fun r => r.section_code)
        = dedupFirstAux (st.2.map Prod.fst)
            (rds.map (fun rd => canonicalize rd.section_code)) ∧
      (∀ r' ∈ new, r'.regulation_id = regId) ∧
      (∀ r' ∈ new, ∃ rd, rds.find?
          (fun x => canonicalize x.section_code = r'.section_code)
          = some rd ∧
        r'.content = sanitizeContent rd.content) := by
  intro rds
  induction rds with
  | nil =>
    intro st
    exact ⟨[], by simp, by simp [dedupFirstAux], by simp, by simp⟩
  | cons rd rest ih =>
    intro st
    rw [List.foldl_cons]
    by_cases hseen :
        (alistGet (canonicalize rd.section_code) st.2).isSome = true
    · have hstep := ingestRuleStep_seen C now wd v regId cto st rd hseen
      rw [hstep]
      obtain ⟨new, h1, h2, h3, h4⟩ := ih st
      have hmem : canonicalize rd.section_code ∈ st.2.map Prod.fst :=
        (alistGet_isSome_iff _ st.2).mp hseen
      refine ⟨new, h1, ?_, h3, ?_⟩
      · rw [List.map_cons]
        simp only [dedupFirstAux]
        rw [if_pos hmem]
        exact h2
      · intro r' hr'
        obtain ⟨rd', hfind, hcont⟩ := h4 r' hr'
        have hr'code : r'.section_code ∈ new.map (fun r => r.section_code) :=
          List.mem_map_of_mem _ hr'
        rw [h2] at hr'code
        have hnot := dedupFirstAux_not_seen _ _ _ hr'code
        have hneq : ¬ (canonicalize rd.section_code = r'.section_code) :=
          fun heq => hnot (heq ▸ hmem)
        refine ⟨rd', ?_, hcont⟩
        rw [List.find?_cons_of_neg _ (by simpa using hneq)]
        exact hfind
    · have hseen' : (alistGet (canonicalize rd.section_code) st.2).isSome
          = false := by
        simpa using hseen
      obtain ⟨ru, hrules1, hm1, hcode, hregid, hcontent⟩ :=
        ingestRuleStep_not_seen C now wd v regId cto st rd hseen'
      obtain ⟨new, h1, h2, h3, h4⟩ :=
        ih (ingestRuleStep C now wd v regId cto st rd)
      have hnmem : canonicalize rd.section_code ∉ st.2.map Prod.fst :=
        fun hm => hseen ((alistGet_isSome_iff _ st.2).mpr hm)
      have hkeys : ∀ c,
          c ∈ (ingestRuleStep C now wd v regId cto st rd).2.map Prod.fst
            ↔ c ∈ canonicalize rd.section_code :: st.2.map Prod.fst := by
        intro c
        rw [hm1, alistInsert_keys_mem, List.mem_cons]
      refine ⟨ru :: new, ?_, ?_, ?_, ?_⟩
      · rw [h1, hrules1, List.append_assoc]
        rfl
      · rw [List.map_cons, List.map_cons]
        simp only [dedupFirstAux]
        rw [if_neg hnmem, hcode]
        rw [h2, dedupFirstAux_congr _ _ _ hkeys]
      · intro r' hr'
        rcases List.mem_cons.mp hr' with rfl | hr''
        · exact hregid
        · exact h3 r' hr''
      · intro r' hr'
        rcases List.mem_cons.mp hr' with rfl | hr''
        · refine ⟨rd, ?_, hcontent⟩
          rw [List.find?_cons_of_pos _ (by simp [hcode])]
        · obtain ⟨rd', hfind, hcont⟩ := h4 r' hr''
          have hr'code : r'.section_code
              ∈ new.map (fun r => r.section_code) :=
            List.mem_map_of_mem _ hr''
          rw [h2] at hr'code
          have hnot := dedupFirstAux_not_seen _ _ _ hr'code
          have hscmem : canonicalize rd.section_code
              ∈ (ingestRuleStep C now wd v regId cto st rd).2.map Prod.fst :=
            (hkeys _).mpr (List.mem_cons_self _ _)
          have hneq : ¬ (canonicalize rd.section_code = r'.section_code) :=
            fun heq => hnot (heq ▸ hscmem)
          refine ⟨rd', ?_, hcont⟩
          rw [List.find?_cons_of_neg _ (by simpa using hneq)]
          exact hfind

/-! The orphan-linking pass preserves the ruleKey projection of every
rule as long as every stored section code is already canonical: the
re-canonicalization branch is then never taken and only parent_rule_id
is mutated. -/

theorem orphanStep_rules_key (regId : Nat)
    (st : DB × List (String × RuleRow)) (rid : Nat)
    (hc : ∀ r ∈ st.1.rules, canonicalize r.section_code = r.section_code) :
    (orphanStep regId st rid).1.rules.map ruleKey
      = st.1.rules.map ruleKey := by
  rw [orphanStep]
  cases hfind : st.1.rules.find? (fun r => r.id = rid) with
  | none => simp only [hfind]
  | some r =>
    simp only [hfind]
    have hr : r ∈ st.1.rules := List.mem_of_find?_eq_some hfind
    have hcr := hc r hr
    have hne : ¬ (r.section_code ≠ canonicalize r.section_code) :=
      fun h => h hcr.symm
    rw [if_neg hne]
    split
    · dsimp only
      split
      · apply updateFirst_map_key
        intro x
        rfl
      · rfl
    · rfl

theorem foldl_orphanStep_key (regId : Nat) :
    ∀ (ids : List Nat) (st : DB × List (String × RuleRow)),
      (∀ r ∈ st.1.rules, canonicalize r.section_code = r.section_code) →
      (ids.foldl (orphanStep regId) st).1.rules.map ruleKey
        = st.1.rules.map ruleKey := by
  intro ids
  induction ids with
  | nil => intro st _; rfl
  | cons rid rest ih =>
    intro st hc
    rw [List.foldl_cons]
    have h1 := orphanStep_rules_key regId st rid hc
    have hc1 := canon_of_key_eq h1 hc
    rw [ih (orphanStep regId st rid) hc1, h1]

theorem orphanPass_rules_key (regId : Nat) (db : DB)
    (m : List (String × RuleRow))
    (hc : ∀ r ∈ db.rules, canonicalize r.section_code = r.section_code) :
    (orphanPass regId db m).1.rules.map ruleKey = db.rules.map ruleKey := by
  rw [orphanPass]
  exact foldl_orphanStep_key regId _ (db, m) hc

/-! The rule-creating pipeline of the new-regulation path: the rule loop
followed by the mapping transfer and the orphan pass.  Up to the ruleKey
projection the rules after the pipeline are the initial rules plus the
first-occurrence rules of the records. -/

theorem pipeline_rules (C : Collab) (now : Instant) (wd : Option Instant)
    (version : String) (regId : Nat) (cto : List (String × RuleRow))
    (db0 : DB) (rds : List RuleRecord) (prev : Option RegRow)
    (hcanonDB : ∀ r ∈ db0.rules,
      canonicalize r.section_code = r.section_code)
    (hcanonP : ∀ rd ∈ rds,
      canonicalize (canonicalize rd.section_code)
        = canonicalize rd.section_code) :
    ∃ new : List RuleRow,
      (orphanPass regId
          (transferMappings C now
            (rds.foldl (ingestRuleStep C now wd version regId cto)
              (db0, [])).1
            prev cto
            (rds.foldl (ingestRuleStep C now wd version regId cto)
              (db0, [])).2)
          (rds.foldl (ingestRuleStep C now wd version regId cto)
            (db0, [])).2).1.rules.map ruleKey
        = (db0.rules ++ new).map ruleKey ∧
      new.map (fun r => r.section_code)
        = dedupFirstAux []
            (rds.map (fun rd => canonicalize rd.section_code)) ∧
      (∀ r' ∈ new, r'.regulation_id = regId) ∧
      (∀ r' ∈ new, ∃ rd, rds.find?
          (fun x => canonicalize x.section_code = r'.section_code)
          = some rd ∧
        r'.content = sanitizeContent rd.content) := by
  obtain ⟨new, h1, h2, h3, h4⟩ :=
    fold_rules_spec C now wd version regId cto rds (db0, [])
  set st1 := rds.foldl (ingestRuleStep C now wd version regId cto)
    (db0, []) with hst1
  set db2 := transferMappings C now st1.1 prev cto st1.2 with hdb2
  have hrules2 : db2.rules = db0.rules ++ new := by
    rw [hdb2, (transferMappings_frame C now st1.1 prev cto st1.2).2.1]
    exact h1
  have hcAll : ∀ r ∈ db2.rules,
      canonicalize r.section_code = r.section_code := by
    rw [hrules2]
    intro r hr
    rcases List.mem_append.mp hr with h | h
    · exact hcanonDB r h
    · have hco : r.section_code ∈ new.map (fun r => r.section_code) :=
        List.mem_map_of_mem _ h
      rw [h2] at hco
      have hmem := dedupFirstAux_sub _ _ _ hco
      obtain ⟨rd, hrd, heq⟩ := List.mem_map.mp hmem
      rw [← heq]
      exact hcanonP rd hrd
  refine ⟨new, ?_, h2, h3, h4⟩
  rw [orphanPass_rules_key regId db2 st1.2 hcAll, hrules2]

/-! The three paths of _ingest_regulation_text. -/

/-- The per-rule update of the hash-alias path (the body of the loop that
propagates the new version and fills empty effective dates); named so the
alias-path characterization can speak about it. -/
def upgradeRule (v : String) (w : Option Instant) (rid : Nat)
    (r : RuleRow) : RuleRow :=
  if r.regulation_id = rid then
    let ra := if r.version ≠ v then { r with version := v } else r
    match w with
    | some w' =>
      if ra.effective_date = none then { ra with effective_date := some w' }
      else ra
    | none => ra
  else r

theorem upgradeRule_id (v : String) (w : Option Instant) (rid : Nat)
    (r : RuleRow) : (upgradeRule v w rid r).id = r.id := by
  rw [upgradeRule]
  rcases w with _ | w' <;>
    by_cases h1 : r.regulation_id = rid <;>
      by_cases h2 : r.version ≠ v <;>
        by_cases h3 : r.effective_date = none <;>
          simp [h1, h2, h3]

theorem upgradeRule_regulation_id (v : String) (w : Option Instant)
    (rid : Nat) (r : RuleRow) :
    (upgradeRule v w rid r).regulation_id = r.regulation_id := by
  rw [upgradeRule]
  rcases w with _ | w' <;>
    by_cases h1 : r.regulation_id = rid <;>
      by_cases h2 : r.version ≠ v <;>
        by_cases h3 : r.effective_date = none <;>
          simp [h1, h2, h3]

theorem upgradeRule_version (v : String) (w : Option Instant) (rid : Nat)
    (r : RuleRow) (h : r.regulation_id = rid) :
    (upgradeRule v w rid r).version = v := by
  rw [upgradeRule]
  rcases w with _ | w' <;>
    by_cases h2 : r.version ≠ v <;>
      by_cases h3 : r.effective_date = none <;>
        simp [h, h2, h3, not_not.mp]

theorem upgradeRule_effective_date (v : String) (w : Option Instant)
    (rid : Nat) (r : RuleRow) :
    (upgradeRule v w rid r).effective_date = r.effective_date ∨
      r.effective_date = none := by
  rw [upgradeRule]
  rcases w with _ | w' <;>
    by_cases h1 : r.regulation_id = rid <;>
      by_cases h2 : r.version ≠ v <;>
        by_cases h3 : r.effective_date = none <;>
          simp [h1, h2, h3]

/-- Existing-(celex_id, version) path: the engine returns the stored row
and changes nothing. -/
theorem ingest_existing (C : Collab) (now : Instant) (db : DB)
    (name version text url celex_id : String) (expV : Option String)
    (wd : Option Instant) (e : RegRow)
    (hf : db.regs.find?
        (fun r => r.celex_id = celex_id ∧ r.version = version) = some e) :
    ingestRegulationText C now db name version text url celex_id expV wd
      = (db, e) := by
  rw [ingestRegulationText.eq_def]
  simp only [hf]

/-- Hash-alias path: no (celex_id, version) row but a same-hash row shr
exists; the engine rewrites shr in place (its version becomes the new
one) and maps the version upgrade over the rules. -/
theorem ingest_alias (C : Collab) (now : Instant) (db : DB)
    (name version text url celex_id : String) (expV : Option String)
    (wd : Option Instant) (shr : RegRow)
    (hf : db.regs.find?
        (fun r => r.celex_id = celex_id ∧ r.version = version) = none)
    (hs : (sortStable (fun a b => optGtI a.effective_date b.effective_date)
        (db.regs.filter (fun r => r.celex_id = celex_id ∧
          r.content_hash = some (C.sha (sanitizeContent text))))).head?
        = some shr) :
    ∃ r3 : RegRow,
      (ingestRegulationText C now db name version text url celex_id expV
          wd).2 = r3 ∧
      (ingestRegulationText C now db name version text url celex_id expV
          wd).1.regs
        = updateFirst (fun r => r.id = shr.id) (fun _ => r3) db.regs ∧
      (ingestRegulationText C now db name version text url celex_id expV
          wd).1.rules
        = db.rules.map (upgradeRule version wd shr.id) ∧
      r3.id = shr.id ∧ r3.celex_id = celex_id ∧ r3.version = version := by
  have hmem0 : shr ∈ sortStable
      (fun a b => optGtI a.effective_date b.effective_date)
      (db.regs.filter (fun r => r.celex_id = celex_id ∧
        r.content_hash = some (C.sha (sanitizeContent text)))) :=
    mem_of_head? hs
  have hmem1 : shr ∈ db.regs.filter (fun r => r.celex_id = celex_id ∧
      r.content_hash = some (C.sha (sanitizeContent text))) :=
    (mem_sortStable _ _ _).mp hmem0
  have hmem : shr ∈ db.regs := (List.mem_filter.mp hmem1).1
  have hcel : shr.celex_id = celex_id :=
    (of_decide_eq_true (List.mem_filter.mp hmem1).2).1
  have hall := List.find?_eq_none.mp hf
  have hver : shr.version ≠ version := by
    intro hv
    exact hall shr hmem (decide_eq_true ⟨hcel, hv⟩)
  rw [ingestRegulationText.eq_def]
  simp only [hf, hs]
  rw [if_pos (Or.inl hver)]
  dsimp only
  refine ⟨_, rfl, rfl, ?_, ?_, ?_, ?_⟩
  · refine List.map_congr_left fun r _ => ?_
    rw [upgradeRule]
    rcases wd with _ | w' <;>
      by_cases h1 : r.regulation_id = shr.id <;>
        by_cases h2 : r.version ≠ version <;>
          by_cases h3 : r.effective_date = none <;>
            simp [h1, h2, h3]
  · rw [if_pos hver]
    repeat' first | rfl | split
  · rw [if_pos hver]
    (repeat' split) <;> exact hcel
  · rw [if_pos hver]
    repeat' first | rfl | split

/-- New-regulation path: no (celex_id, version) row and no same-hash row;
the engine appends a fresh Regulation row carrying the given identifiers
and returns it. -/
theorem ingest_new_path (C : Collab) (now : Instant) (db : DB)
    (name version text url celex_id : String) (expV : Option String)
    (wd : Option Instant)
    (hf : db.regs.find?
        (fun r => r.celex_id = celex_id ∧ r.version = version) = none)
    (hs : (sortStable (fun a b => optGtI a.effective_date b.effective_date)
        (db.regs.filter (fun r => r.celex_id = celex_id ∧
          r.content_hash = some (C.sha (sanitizeContent text))))).head?
        = none) :
    (ingestRegulationText C now db name version text url celex_id expV
        wd).1.regs
      = db.regs ++
        [(ingestRegulationText C now db name version text url celex_id expV
          wd).2] ∧
    (ingestRegulationText C now db name version text url celex_id expV
        wd).2.id = db.next_id ∧
    (ingestRegulationText C now db name version text url celex_id expV
        wd).2.celex_id = celex_id ∧
    (ingestRegulationText C now db name version text url celex_id expV
        wd).2.version = version ∧
    (ingestRegulationText C now db name version text url celex_id expV
        wd).2.content_hash = some (C.sha (sanitizeContent text)) := by
  rw [ingestRegulationText.eq_def]
  simp only [hf, hs]
  refine ⟨?_, trivial, trivial, trivial, trivial⟩
  rw [(orphanPass_frame _ _ _).1, (transferMappings_frame _ _ _ _ _ _).1,
    (foldl_ingestRuleStep_frame _ _ _ _ _ _ _ _).1]

/-- After any ingest call there is exactly one (celex_id, version) row,
provided there was at most one before, and find? for that key returns
exactly the row the call returned. -/
theorem ingest_post (C : Collab) (now : Instant) (db : DB)
    (name version text url celex_id : String) (expV : Option String)
    (wd : Option Instant)
    (h2 : (db.regs.filter (fun r => r.celex_id = celex_id ∧
        r.version = version)).length ≤ 1) :
    (ingestRegulationText C now db name version text url celex_id expV
        wd).1.regs.find?
        (fun r => r.celex_id = celex_id ∧ r.version = version)
      = some (ingestRegulationText C now db name version text url celex_id
          expV wd).2 ∧
    ((ingestRegulationText C now db name version text url celex_id expV
        wd).1.regs.filter
        (fun r => r.celex_id = celex_id ∧ r.version = version)).length
      = 1 := by
  cases hf : db.regs.find?
      (fun r => r.celex_id = celex_id ∧ r.version = version) with
  | some e =>
    rw [ingest_existing C now db name version text url celex_id expV wd e hf]
    refine ⟨hf, ?_⟩
    have hpe := List.find?_some hf
    have hmemf : e ∈ db.regs.filter
        (fun r => r.celex_id = celex_id ∧ r.version = version) :=
      List.mem_filter.mpr ⟨List.mem_of_find?_eq_some hf, hpe⟩
    have h0 : 0 < (db.regs.filter (fun r => r.celex_id = celex_id ∧
        r.version = version)).length :=
      List.length_pos.mpr (List.ne_nil_of_mem hmemf)
    show (db.regs.filter (fun r => r.celex_id = celex_id ∧
        r.version = version)).length = 1
    omega
  | none =>
    have hall := List.find?_eq_none.mp hf
    have hallf : ∀ x ∈ db.regs,
        (fun r : RegRow => decide (r.celex_id = celex_id ∧
          r.version = version)) x = false := by
      intro x hx
      simpa using hall x hx
    cases hs : (sortStable
        (fun a b => optGtI a.effective_date b.effective_date)
        (db.regs.filter (fun r => r.celex_id = celex_id ∧
          r.content_hash = some (C.sha (sanitizeContent text))))).head? with
    | some shr =>
      obtain ⟨r3, hret, hregs, _, hid, hcel, hver⟩ :=
        ingest_alias C now db name version text url celex_id expV wd shr
          hf hs
      have hmem : shr ∈ db.regs :=
        (List.mem_filter.mp
          ((mem_sortStable _ _ _).mp (mem_of_head? hs))).1
      obtain ⟨l1, y, l2, hdec, hl1, hpy, hupd⟩ :=
        updateFirst_decomp (fun r => r.id = shr.id) (fun _ => r3) db.regs
          ⟨shr, hmem, by simp⟩
      have hupd' : updateFirst (fun r : RegRow => r.id = shr.id)
          (fun _ => r3) db.regs = l1 ++ r3 :: l2 := hupd
      rw [hret, hregs, hupd']
      have hl1f : ∀ x ∈ l1,
          (fun r : RegRow => decide (r.celex_id = celex_id ∧
            r.version = version)) x = false := fun x hx =>
        hallf x (by rw [hdec]; exact List.mem_append_left _ hx)
      have hl2f : ∀ x ∈ l2,
          (fun r : RegRow => decide (r.celex_id = celex_id ∧
            r.version = version)) x = false := fun x hx =>
        hallf x (by
          rw [hdec]
          exact List.mem_append_right _ (List.mem_cons_of_mem _ hx))
      have hfc : List.filter (fun r : RegRow => decide (r.celex_id = celex_id
            ∧ r.version = version)) (r3 :: l2)
          = r3 :: List.filter (fun r : RegRow => decide (r.celex_id = celex_id
            ∧ r.version = version)) l2 :=
        List.filter_cons_of_pos (decide_eq_true ⟨hcel, hver⟩)
      constructor
      · rw [find?_skip _ l1 hl1f]
        exact List.find?_cons_of_pos _ (decide_eq_true ⟨hcel, hver⟩)
      · rw [List.filter_append, filter_none _ l1 hl1f, hfc,
          filter_none _ l2 hl2f]
        rfl
    | none =>
      obtain ⟨hregs, hid, hcel, hver, hhash⟩ :=
        ingest_new_path C now db name version text url celex_id expV wd
          hf hs
      rw [hregs]
      have hfc : List.filter (fun r : RegRow => decide (r.celex_id = celex_id
            ∧ r.version = version))
          [(ingestRegulationText C now db name version text url celex_id
            expV wd).2]
          = [(ingestRegulationText C now db name version text url celex_id
            expV wd).2] :=
        List.filter_cons_of_pos (decide_eq_true ⟨hcel, hver⟩)
      constructor
      · rw [find?_skip _ db.regs hallf]
        exact List.find?_cons_of_pos _ (decide_eq_true ⟨hcel, hver⟩)
      · rw [List.filter_append, filter_none _ db.regs hallf, hfc]
        rfl

/-! ### Claim C1 -/

/-- C1: idempotent ingest.  Under the store invariant that at most one
Regulation row matches (celex_id, version), calling the ingestion engine
twice with the same (name, version, text, celex_id) tuple leaves the
store of the first call completely unchanged, the second call returns the
Regulation of the first, exactly one Regulation row matches
(celex_id, version), and the Rule and ComplianceAlert counts are those of
the first call (no new rows). -/
theorem ingest_idempotent (C : Collab) (now1 now2 : Instant) (db : DB)
    (name version text url celex_id : String) (expV : Option String)
    (wd : Option Instant)
    (h2 : (db.regs.filter (fun r => r.celex_id = celex_id ∧
        r.version = version)).length ≤ 1) :
    (ingestRegulationText C now2
        (ingestRegulationText C now1 db name version text url celex_id expV
          wd).1 name version text url celex_id expV wd).1
      = (ingestRegulationText C now1 db name version text url celex_id expV
          wd).1 ∧
    (ingestRegulationText C now2
        (ingestRegulationText C now1 db name version text url celex_id expV
          wd).1 name version text url celex_id expV wd).2
      = (ingestRegulationText C now1 db name version text url celex_id expV
          wd).2 ∧
    ((ingestRegulationText C now2
        (ingestRegulationText C now1 db name version text url celex_id expV
          wd).1 name version text url celex_id expV wd).1.regs.filter
        (fun r => r.celex_id = celex_id ∧ r.version = version)).length
      = 1 ∧
    (ingestRegulationText C now2
        (ingestRegulationText C now1 db name version text url celex_id expV
          wd).1 name version text url celex_id expV wd).1.rules.length
      = (ingestRegulationText C now1 db name version text url celex_id expV
          wd).1.rules.length ∧
    (ingestRegulationText C now2
        (ingestRegulationText C now1 db name version text url celex_id expV
          wd).1 name version text url celex_id expV wd).1.alerts.length
      = (ingestRegulationText C now1 db name version text url celex_id expV
          wd).1.alerts.length := by
  obtain ⟨hfind, hlen⟩ :=
    ingest_post C now1 db name version text url celex_id expV wd h2
  have he := ingest_existing C now2
    (ingestRegulationText C now1 db name version text url celex_id expV
      wd).1
    name version text url celex_id expV wd
    (ingestRegulationText C now1 db name version text url celex_id expV
      wd).2
    hfind
  rw [he]
  exact ⟨rfl, rfl, hlen, rfl, rfl⟩

/-! ### Claim C2 -/

/-- C2: hash-alias upgrade.  Starting from a store with no Regulation for
the CELEX id (and fresh ids), ingesting text1 as version v1 and then
text2 with the same content hash as version v2 leaves exactly one
Regulation row for the CELEX id, namely the returned one; its version is
v2; every Rule of that Regulation carries version v2; and a Rule's
effective_date is changed only if it was previously empty. -/
theorem ingest_hash_alias_upgrade (C : Collab) (now1 now2 : Instant)
    (db : DB) (n1 n2 v1 v2 text1 text2 url1 url2 celex_id : String)
    (e1 e2 : Option String) (w1 w2 : Option Instant)
    (hnoc : ∀ r ∈ db.regs, ¬ r.celex_id = celex_id)
    (hfresh : ∀ r ∈ db.regs, ¬ r.id = db.next_id)
    (hv : v1 ≠ v2)
    (hhash : C.sha (sanitizeContent text2) = C.sha (sanitizeContent text1)) :
    ((ingestRegulationText C now2
        (ingestRegulationText C now1 db n1 v1 text1 url1 celex_id e1
          w1).1 n2 v2 text2 url2 celex_id e2 w2).1.regs.filter
        (fun r => r.celex_id = celex_id))
      = [(ingestRegulationText C now2
          (ingestRegulationText C now1 db n1 v1 text1 url1 celex_id e1
            w1).1 n2 v2 text2 url2 celex_id e2 w2).2] ∧
    (ingestRegulationText C now2
        (ingestRegulationText C now1 db n1 v1 text1 url1 celex_id e1
          w1).1 n2 v2 text2 url2 celex_id e2 w2).2.version = v2 ∧
    (∀ ru ∈ (ingestRegulationText C now2
        (ingestRegulationText C now1 db n1 v1 text1 url1 celex_id e1
          w1).1 n2 v2 text2 url2 celex_id e2 w2).1.rules,
      ru.regulation_id = (ingestRegulationText C now2
        (ingestRegulationText C now1 db n1 v1 text1 url1 celex_id e1
          w1).1 n2 v2 text2 url2 celex_id e2 w2).2.id →
      ru.version = v2) ∧
    (∀ ru' ∈ (ingestRegulationText C now2
        (ingestRegulationText C now1 db n1 v1 text1 url1 celex_id e1
          w1).1 n2 v2 text2 url2 celex_id e2 w2).1.rules,
      ∃ ru ∈ (ingestRegulationText C now1 db n1 v1 text1 url1 celex_id e1
          w1).1.rules,
        ru'.id = ru.id ∧ (ru'.effective_date = ru.effective_date ∨
          ru.effective_date = none)) := by
  have hf1 : db.regs.find?
      (fun r => r.celex_id = celex_id ∧ r.version = v1) = none :=
    List.find?_eq_none.mpr (fun x hx hp => hnoc x hx (of_decide_eq_true hp).1)
  have hnf1 : ∀ x ∈ db.regs,
      (fun r : RegRow => decide (r.celex_id = celex_id ∧
        r.content_hash = some (C.sha (sanitizeContent text1)))) x
        = false := by
    intro x hx
    simp only [decide_eq_false_iff_not]
    exact fun h => hnoc x hx h.1
  have hs1 : (sortStable (fun a b => optGtI a.effective_date b.effective_date)
      (db.regs.filter (fun r => r.celex_id = celex_id ∧
        r.content_hash = some (C.sha (sanitizeContent text1))))).head?
      = none := by
    rw [filter_none _ db.regs hnf1]
    rfl
  obtain ⟨hregs1, hid1, hcel1, hver1, hhash1⟩ :=
    ingest_new_path C now1 db n1 v1 text1 url1 celex_id e1 w1 hf1 hs1
  rcases hcall1 : ingestRegulationText C now1 db n1 v1 text1 url1 celex_id
      e1 w1 with ⟨db1, R1⟩
  simp only [hcall1] at hregs1 hid1 hcel1 hver1 hhash1 ⊢
  have hf2 : db1.regs.find?
      (fun r => r.celex_id = celex_id ∧ r.version = v2) = none := by
    apply List.find?_eq_none.mpr
    intro x hx hp
    rw [hregs1] at hx
    rcases List.mem_append.mp hx with hx' | hx'
    · exact hnoc x hx' (of_decide_eq_true hp).1
    · have hx1 : x = R1 := by simpa using hx'
      rw [hx1] at hp
      exact hv (hver1.symm.trans (of_decide_eq_true hp).2)
  have hnf2 : ∀ x ∈ db.regs,
      (fun r : RegRow => decide (r.celex_id = celex_id ∧
        r.content_hash = some (C.sha (sanitizeContent text2)))) x
        = false := by
    intro x hx
    simp only [decide_eq_false_iff_not]
    exact fun h => hnoc x hx h.1
  have hs2 : (sortStable (fun a b => optGtI a.effective_date b.effective_date)
      (db1.regs.filter (fun r => r.celex_id = celex_id ∧
        r.content_hash = some (C.sha (sanitizeContent text2))))).head?
      = some R1 := by
    rw [hregs1, List.filter_append, filter_none _ db.regs hnf2]
    have hfc : List.filter (fun r : RegRow => decide (r.celex_id = celex_id
          ∧ r.content_hash = some (C.sha (sanitizeContent text2)))) [R1]
        = [R1] :=
      List.filter_cons_of_pos
        (decide_eq_true ⟨hcel1, by rw [hhash]; exact hhash1⟩)
    rw [hfc]
    rfl
  obtain ⟨r3, hret2, hregs2, hrules2, hid3, hcel3, hver3⟩ :=
    ingest_alias C now2 db1 n2 v2 text2 url2 celex_id e2 w2 R1 hf2 hs2
  rcases hcall2 : ingestRegulationText C now2 db1 n2 v2 text2 url2 celex_id
      e2 w2 with ⟨db2, R2⟩
  simp only [hcall2] at hret2 hregs2 hrules2 ⊢
  subst hret2
  constructor
  · have hpref : ∀ x ∈ db.regs,
        (fun r : RegRow => decide (r.id = R1.id)) x = false := by
      intro x hx
      simp only [decide_eq_false_iff_not]
      exact fun h => hfresh x hx (h.trans hid1)
    have hupd : updateFirst (fun r : RegRow => r.id = R1.id) (fun _ => R2)
        (db.regs ++ [R1]) = db.regs ++ [R2] := by
      rw [updateFirst_append_none _ _ db.regs hpref [R1]]
      have hone : updateFirst (fun r : RegRow => r.id = R1.id)
          (fun _ => R2) [R1] = [R2] := by
        simp [updateFirst]
      rw [hone]
    have hnc : ∀ x ∈ db.regs,
        (fun r : RegRow => decide (r.celex_id = celex_id)) x = false := by
      intro x hx
      simp only [decide_eq_false_iff_not]
      exact hnoc x hx
    have hfc3 : List.filter
        (fun r : RegRow => decide (r.celex_id = celex_id)) [R2] = [R2] :=
      List.filter_cons_of_pos (decide_eq_true hcel3)
    rw [hregs2, hregs1, hupd, List.filter_append,
      filter_none _ db.regs hnc, hfc3]
    rfl
  refine ⟨hver3, ?_, ?_⟩
  · intro ru hru hrid
    rw [hrules2] at hru
    obtain ⟨r, hr, rfl⟩ := List.mem_map.mp hru
    apply upgradeRule_version
    have h' : (upgradeRule v2 w2 R1.id r).regulation_id = R2.id := hrid
    rw [upgradeRule_regulation_id] at h'
    exact h'.trans hid3
  · intro ru' hru'
    rw [hrules2] at hru'
    obtain ⟨r, hr, rfl⟩ := List.mem_map.mp hru'
    exact ⟨r, hr, upgradeRule_id _ _ _ _, upgradeRule_effective_date _ _ _ _⟩

/-- On the new-regulation path, the rules added by the ingestion are (up
to the ruleKey projection) exactly the first-occurrence canonical section
codes of the parsed records, with the doubly-sanitized content of the
first record of each code. -/
theorem ingest_new_rules (C : Collab) (now : Instant) (db : DB)
    (name version text url celex_id : String) (expV : Option String)
    (wd : Option Instant)
    (hf : db.regs.find?
        (fun r => r.celex_id = celex_id ∧ r.version = version) = none)
    (hs : (sortStable (fun a b => optGtI a.effective_date b.effective_date)
        (db.regs.filter (fun r => r.celex_id = celex_id ∧
          r.content_hash = some (C.sha (sanitizeContent text))))).head?
        = none)
    (hcanonDB : ∀ r ∈ db.rules,
      canonicalize r.section_code = r.section_code)
    (hcanonParse : ∀ rd ∈ C.parse text,
      canonicalize (canonicalize rd.section_code)
        = canonicalize rd.section_code) :
    ∃ new : List RuleRow,
      (ingestRegulationText C now db name version text url celex_id expV
          wd).1.rules.map ruleKey
        = (db.rules ++ new).map ruleKey ∧
      new.map (fun r => r.section_code)
        = dedupFirst
            ((C.parse text).map (fun rd => canonicalize rd.section_code)) ∧
      (∀ r' ∈ new, r'.regulation_id = db.next_id) ∧
      (∀ r' ∈ new, ∃ rd, (C.parse text).find?
          (fun x => canonicalize x.section_code = r'.section_code)
          = some rd ∧
        r'.content = sanitizeContent (sanitizeContent rd.content)) := by
  have hcanonP' : ∀ rd ∈ (C.parse text).map
      (fun rd => { rd with content := sanitizeContent rd.content }),
      canonicalize (canonicalize rd.section_code)
        = canonicalize rd.section_code := by
    intro rd hrd
    obtain ⟨rd0, hrd0, hfd⟩ := List.mem_map.mp hrd
    rw [← hfd]
    exact hcanonParse rd0 hrd0
  let EV : String :=
    match expV with
    | some e => if e ≠ "" then e else version
    | none => version
  let REG : RegRow :=
    { id := db.next_id, name := name, celex_id := celex_id,
      version := version, expression_version := some EV,
      work_date := wd, source_url := url,
      effective_date := some (wd.getD now), last_updated := now,
      status := "active",
      content_hash := some (C.sha (sanitizeContent text)) }
  let DB0 : DB :=
    { db with regs := db.regs ++ [REG], next_id := db.next_id + 1 }
  let PREV : Option RegRow :=
    (sortStable regPrevGt
      (db.regs.filter (fun r => r.celex_id = celex_id))).head?
  let CTO : List (String × RuleRow) :=
    match PREV with
    | some p => buildCodeToOld
        (db.rules.filter (fun r => r.regulation_id = p.id))
    | none => []
  obtain ⟨new, h1, h2, h3, h4⟩ := pipeline_rules C now wd version db.next_id
    CTO DB0
    ((C.parse text).map
      (fun rd => { rd with content := sanitizeContent rd.content }))
    PREV hcanonDB hcanonP'
  rw [ingestRegulationText.eq_def]
  simp only [hf, hs]
  refine ⟨new, ?_, ?_, h3, ?_⟩
  · exact h1
  · rw [dedupFirst]
    have hmaps : ((C.parse text).map
        (fun rd => { rd with content := sanitizeContent rd.content })).map
          (fun rd => canonicalize rd.section_code)
        = (C.parse text).map (fun rd => canonicalize rd.section_code) := by
      rw [List.map_map]
      rfl
    rw [← hmaps]
    exact h2
  · intro r' hr'
    obtain ⟨rd, hfind, hcont⟩ := h4 r' hr'
    rw [find?_map'] at hfind
    obtain ⟨rd0, hf0, hfr⟩ := Option.map_eq_some'.mp hfind
    refine ⟨rd0, hf0, ?_⟩
    rw [hcont, ← hfr]

/-! ### Claim C9 -/

/-- C9: within one ingestion call on the new-regulation path, the
canonical section_code is unique among the Rules created for the new
Regulation: the codes of the created Rules are exactly the
first-occurrence canonical codes of the parsed records in order (later
duplicates are skipped), they are pairwise distinct, and each created
Rule carries the (doubly sanitized) content of the first record with its
code.  Hypotheses: stored rules reference existing regulations and carry
canonical codes (the engine's own invariants), and the parsed codes
canonicalize idempotently. -/
theorem ingest_dedup_section_codes (C : Collab) (now : Instant) (db : DB)
    (name version text url celex_id : String) (expV : Option String)
    (wd : Option Instant)
    (hf : db.regs.find?
        (fun r => r.celex_id = celex_id ∧ r.version = version) = none)
    (hs : (sortStable (fun a b => optGtI a.effective_date b.effective_date)
        (db.regs.filter (fun r => r.celex_id = celex_id ∧
          r.content_hash = some (C.sha (sanitizeContent text))))).head?
        = none)
    (hfreshReg : ∀ r ∈ db.rules, ¬ r.regulation_id = db.next_id)
    (hcanonDB : ∀ r ∈ db.rules,
      canonicalize r.section_code = r.section_code)
    (hcanonParse : ∀ rd ∈ C.parse text,
      canonicalize (canonicalize rd.section_code)
        = canonicalize rd.section_code) :
    (((ingestRegulationText C now db name version text url celex_id expV
        wd).1.rules.filter (fun r => r.regulation_id =
          (ingestRegulationText C now db name version text url celex_id
            expV wd).2.id)).map (fun r => r.section_code))
      = dedupFirst
          ((C.parse text).map (fun rd => canonicalize rd.section_code)) ∧
    ((((ingestRegulationText C now db name version text url celex_id expV
        wd).1.rules.filter (fun r => r.regulation_id =
          (ingestRegulationText C now db name version text url celex_id
            expV wd).2.id)).map (fun r => r.section_code))).Nodup ∧
    (∀ r' ∈ (ingestRegulationText C now db name version text url celex_id
        expV wd).1.rules.filter (fun r => r.regulation_id =
          (ingestRegulationText C now db name version text url celex_id
            expV wd).2.id),
      ∃ rd, (C.parse text).find?
          (fun x => canonicalize x.section_code = r'.section_code)
          = some rd ∧
        r'.content = sanitizeContent (sanitizeContent rd.content)) := by
  obtain ⟨hregs, hid, hcel, hver, hhash⟩ :=
    ingest_new_path C now db name version text url celex_id expV wd hf hs
  obtain ⟨new, h1, h2, h3, h4⟩ :=
    ingest_new_rules C now db name version text url celex_id expV wd hf hs
      hcanonDB hcanonParse
  simp only [hid]
  have hceq := ruleKey_filter_map_code db.next_id _ _ h1
  have hfilt : (db.rules ++ new).filter
      (fun r => r.regulation_id = db.next_id) = new := by
    rw [List.filter_append]
    have hA : db.rules.filter (fun r => r.regulation_id = db.next_id)
        = [] :=
      filter_none _ _ (fun x hx => decide_eq_false (hfreshReg x hx))
    have hB : new.filter (fun r => r.regulation_id = db.next_id) = new :=
      List.filter_eq_self.mpr (fun a ha => decide_eq_true (h3 a ha))
    rw [hA, hB]
    rfl
  refine ⟨?_, ?_, ?_⟩
  · rw [hceq, hfilt]
    exact h2
  · rw [hceq, hfilt, h2, dedupFirst]
    exact dedupFirstAux_nodup _ _
  · intro r' hr'
    obtain ⟨r'', hr''f, hcode_eq, hcont_eq⟩ :=
      ruleKey_filter_mem db.next_id _ _ h1 r' hr'
    rw [hfilt] at hr''f
    obtain ⟨rd, hfind, hcont⟩ := h4 r'' hr''f
    refine ⟨rd, ?_, ?_⟩
    · rw [← hcode_eq]
      exact hfind
    · rw [← hcont_eq]
      exact hcont

/-! Concrete stores and collaborators for the witnesses. -/

/-- The empty store. -/
def emptyDB : DB := ⟨[], [], [], [], [], [], [], 0⟩

/-- Trivial collaborators: no parsed records, no TF-IDF, constant hash. -/
def c1Collab : Collab := ⟨fun _ => [], fun _ _ => none, fun _ => ""⟩

/-- Trivial collaborators with the constant hash "h" (so that two texts
always collide, driving the alias path). -/
def c2Collab : Collab := ⟨fun _ => [], fun _ _ => none, fun _ => "h"⟩

/-- Collaborators whose parser emits two records with the same canonical
section code followed by a distinct one. -/
def c9Collab : Collab :=
  ⟨fun _ =>
    [⟨"Article9", none, "c1", none, none⟩,
     ⟨"Article9", none, "c2", none, none⟩,
     ⟨"Article10", none, "c3", none, none⟩],
   fun _ _ => none, fun _ => ""⟩

/-- Witness for C1 at the empty store. -/
theorem ingest_idempotent_witness :
    ((emptyDB.regs.filter (fun r => r.celex_id = "CX" ∧
        r.version = "v1")).length ≤ 1) ∧
    ((ingestRegulationText c1Collab 1
        (ingestRegulationText c1Collab 0 emptyDB "n" "v1" "t" "u" "CX"
          none none).1 "n" "v1" "t" "u" "CX" none none).1
      = (ingestRegulationText c1Collab 0 emptyDB "n" "v1" "t" "u" "CX"
          none none).1 ∧
    (ingestRegulationText c1Collab 1
        (ingestRegulationText c1Collab 0 emptyDB "n" "v1" "t" "u" "CX"
          none none).1 "n" "v1" "t" "u" "CX" none none).2
      = (ingestRegulationText c1Collab 0 emptyDB "n" "v1" "t" "u" "CX"
          none none).2 ∧
    ((ingestRegulationText c1Collab 1
        (ingestRegulationText c1Collab 0 emptyDB "n" "v1" "t" "u" "CX"
          none none).1 "n" "v1" "t" "u" "CX" none none).1.regs.filter
        (fun r => r.celex_id = "CX" ∧ r.version = "v1")).length = 1 ∧
    (ingestRegulationText c1Collab 1
        (ingestRegulationText c1Collab 0 emptyDB "n" "v1" "t" "u" "CX"
          none none).1 "n" "v1" "t" "u" "CX" none none).1.rules.length
      = (ingestRegulationText c1Collab 0 emptyDB "n" "v1" "t" "u" "CX"
          none none).1.rules.length ∧
    (ingestRegulationText c1Collab 1
        (ingestRegulationText c1Collab 0 emptyDB "n" "v1" "t" "u" "CX"
          none none).1 "n" "v1" "t" "u" "CX" none none).1.alerts.length
      = (ingestRegulationText c1Collab 0 emptyDB "n" "v1" "t" "u" "CX"
          none none).1.alerts.length) :=
  ⟨by decide,
   ingest_idempotent c1Collab 0 1 emptyDB "n" "v1" "t" "u" "CX" none none
     (by decide)⟩

/-- Witness for C2 at the empty store with the constant hash. -/
theorem ingest_hash_alias_upgrade_witness :
    (∀ r ∈ emptyDB.regs, ¬ r.celex_id = "CX") ∧
    (∀ r ∈ emptyDB.regs, ¬ r.id = emptyDB.next_id) ∧
    ("v1" : String) ≠ "v2" ∧
    c2Collab.sha (sanitizeContent "t2")
      = c2Collab.sha (sanitizeContent "t1") ∧
    (((ingestRegulationText c2Collab 1
        (ingestRegulationText c2Collab 0 emptyDB "n1" "v1" "t1" "u1" "CX"
          none none).1 "n2" "v2" "t2" "u2" "CX" none none).1.regs.filter
        (fun r => r.celex_id = "CX"))
      = [(ingestRegulationText c2Collab 1
          (ingestRegulationText c2Collab 0 emptyDB "n1" "v1" "t1" "u1"
            "CX" none none).1 "n2" "v2" "t2" "u2" "CX" none none).2] ∧
    (ingestRegulationText c2Collab 1
        (ingestRegulationText c2Collab 0 emptyDB "n1" "v1" "t1" "u1" "CX"
          none none).1 "n2" "v2" "t2" "u2" "CX" none none).2.version
      = "v2" ∧
    (∀ ru ∈ (ingestRegulationText c2Collab 1
        (ingestRegulationText c2Collab 0 emptyDB "n1" "v1" "t1" "u1" "CX"
          none none).1 "n2" "v2" "t2" "u2" "CX" none none).1.rules,
      ru.regulation_id = (ingestRegulationText c2Collab 1
        (ingestRegulationText c2Collab 0 emptyDB "n1" "v1" "t1" "u1" "CX"
          none none).1 "n2" "v2" "t2" "u2" "CX" none none).2.id →
      ru.version = "v2") ∧
    (∀ ru' ∈ (ingestRegulationText c2Collab 1
        (ingestRegulationText c2Collab 0 emptyDB "n1" "v1" "t1" "u1" "CX"
          none none).1 "n2" "v2" "t2" "u2" "CX" none none).1.rules,
      ∃ ru ∈ (ingestRegulationText c2Collab 0 emptyDB "n1" "v1" "t1" "u1"
          "CX" none none).1.rules,
        ru'.id = ru.id ∧ (ru'.effective_date = ru.effective_date ∨
          ru.effective_date = none))) :=
  ⟨by decide, by decide, by decide, rfl,
   ingest_hash_alias_upgrade c2Collab 0 1 emptyDB "n1" "n2" "v1" "v2"
     "t1" "t2" "u1" "u2" "CX" none none none none (by decide) (by decide)
     (by decide) rfl⟩

/-- Witness for C9 at the empty store with a duplicate-emitting parser. -/
theorem ingest_dedup_section_codes_witness :
    emptyDB.regs.find? (fun r => r.celex_id = "CX" ∧ r.version = "v1")
      = none ∧
    (sortStable (fun a b => optGtI a.effective_date b.effective_date)
      (emptyDB.regs.filter (fun r => r.celex_id = "CX" ∧
        r.content_hash
          = some (c9Collab.sha (sanitizeContent "t"))))).head? = none ∧
    (∀ r ∈ emptyDB.rules, ¬ r.regulation_id = emptyDB.next_id) ∧
    (∀ r ∈ emptyDB.rules, canonicalize r.section_code = r.section_code) ∧
    (∀ rd ∈ c9Collab.parse "t",
      canonicalize (canonicalize rd.section_code)
        = canonicalize rd.section_code) ∧
    ((((ingestRegulationText c9Collab 0 emptyDB "n" "v1" "t" "u" "CX" none
        none).1.rules.filter (fun r => r.regulation_id =
          (ingestRegulationText c9Collab 0 emptyDB "n" "v1" "t" "u" "CX"
            none none).2.id)).map (fun r => r.section_code))
      = dedupFirst ((c9Collab.parse "t").map
          (fun rd => canonicalize rd.section_code)) ∧
    ((((ingestRegulationText c9Collab 0 emptyDB "n" "v1" "t" "u" "CX" none
        none).1.rules.filter (fun r => r.regulation_id =
          (ingestRegulationText c9Collab 0 emptyDB "n" "v1" "t" "u" "CX"
            none none).2.id)).map (fun r => r.section_code))).Nodup ∧
    (∀ r' ∈ (ingestRegulationText c9Collab 0 emptyDB "n" "v1" "t" "u" "CX"
        none none).1.rules.filter (fun r => r.regulation_id =
          (ingestRegulationText c9Collab 0 emptyDB "n" "v1" "t" "u" "CX"
            none none).2.id),
      ∃ rd, (c9Collab.parse "t").find?
          (fun x => canonicalize x.section_code = r'.section_code)
          = some rd ∧
        r'.content = sanitizeContent (sanitizeContent rd.content))) :=
  ⟨rfl, rfl, by decide, by decide, by decide,
   ingest_dedup_section_codes c9Collab 0 emptyDB "n" "v1" "t" "u" "CX"
     none none rfl rfl (by decide) (by decide) (by decide)⟩

end Annex4
